import Mathlib

/-!
# ftpsclient: a shallow embedding of `ftpsclient.go`

The program lists a remote FTP(S) directory, downloads the listed files with a
pool of workers, validates each download by size, deletes the remote original
and copies the staged file to a destination and a backup directory.

Every interaction with the outside (filesystem, FTP session, clock) is an
operation of a record `Sys σ` over an arbitrary world state `σ`: the outcome of
a call is whatever the world decides, and the world may change with every call.
Each embedded function threads the world through its calls in source order and
returns, next to its Go return value, the trace of the calls it made.
Log output is not modelled.
-/

namespace Ftpsclient

/-! ## Data model -/

/-- A Go string: a sequence of bytes. -/
abbrev GoString := List UInt8

/-- The bytes of a text. -/
def utf8 (s : String) : GoString := s.toList.flatMap String.utf8EncodeChar

/-- A Go `error` value, identified by its message; `nil` is `none`. -/
abbrev Error := String

/-- A `*goftp.Client` handle. -/
abbrev Client := Nat

/-- The fields of `os.FileInfo` the program reads. -/
structure FileInfo where
  Name : GoString
  Size : Int
  IsDir : Bool
  ModTime : Int
  Mode : Nat
  deriving DecidableEq, Repr

/-- The struct `InitConfig`. -/
structure InitConfig where
  Title : GoString
  User : GoString
  Password : GoString
  Server : GoString
  Protocol : GoString
  TLSMode : GoString
  LocalTempPath : GoString
  LocalPath : GoString
  BackupPath : GoString
  FtpPath : GoString
  FileNameFilter : GoString
  ConnectRetry : Int
  RetryInterval : Int
  LogFile : GoString
  deriving DecidableEq, Repr

/-- The fields of `tls.Config` that `FtpsConnect` sets. -/
structure TLSConfig where
  InsecureSkipVerify : Bool
  SessionTicketKey : List UInt8
  ClientSessionCache : Nat
  deriving DecidableEq, Repr

/-- The type `goftp.TLSMode`; its zero value is `TLSExplicit`. -/
inductive TLSMode where
  | TLSExplicit
  | TLSImplicit
  deriving DecidableEq, Repr

/-- The fields of `goftp.Config` that `FtpsConnect` sets; the others keep their zero value. -/
structure Config where
  User : GoString
  Password : GoString
  TLSConfig : Option TLSConfig
  TLSMode : TLSMode
  deriving DecidableEq, Repr

/-- A `time.Duration`: a signed 64-bit count of nanoseconds. -/
abbrev Duration := Int

/-- Wrap-around of a signed 64-bit result. -/
def wrapInt64 (x : Int) : Int := (x + 2 ^ 63) % 2 ^ 64 - 2 ^ 63

/-- The constant `time.Second`. -/
def Second : Duration := 1000000000

/-- The constant `time.Minute`. -/
def Minute : Duration := 60 * Second

/-! ## The outside world -/

/-- The calls the program makes to the operating system, the FTP library and the clock.
Each takes the world state and returns its Go result with the next world state. A file
handle is identified by the path it was opened or created with. -/
structure Sys (σ : Type) where
  /-- The call `os.OpenFile(name, O_APPEND|O_CREATE|O_WRONLY, 0644)`. -/
  osOpenFile : GoString → σ → Option Error × σ
  /-- The call `os.Open(name)`. -/
  osOpen : GoString → σ → Option Error × σ
  /-- The call `os.Create(name)`. -/
  osCreate : GoString → σ → Option Error × σ
  /-- The call `f.Stat()` followed by `.Size()`. -/
  fileStat : GoString → σ → Except Error Int × σ
  /-- The call `f.Close()`. -/
  fileClose : GoString → σ → Option Error × σ
  /-- The call `io.Copy(d, s)`, destination first. -/
  ioCopy : GoString → GoString → σ → Option Error × σ
  /-- The call `os.Remove(name)`. -/
  osRemove : GoString → σ → Option Error × σ
  /-- The call `goftp.DialConfig(config, server)`. -/
  dialConfig : Config → GoString → σ → (Option Client × Option Error) × σ
  /-- The call `time.Sleep(d)`. -/
  sleep : Duration → σ → σ
  /-- The call `conn.ReadDir(path)`. -/
  readDir : Option Client → GoString → σ → Except Error (List FileInfo) × σ
  /-- The call `conn.Retrieve(remote, localFile)`. -/
  retrieve : Option Client → GoString → GoString → σ → Option Error × σ
  /-- The call `conn.Delete(remote)`. -/
  delete : Option Client → GoString → σ → Option Error × σ
  /-- The call `conn.Close()`. -/
  connClose : Option Client → σ → Option Error × σ
  /-- The call `time.Now().Format("20060102")`. -/
  today : σ → GoString × σ

deriving instance DecidableEq for Except

/-- One step of a trace: a call with its outcome, a channel operation, or the start of a
goroutine. `validated` records the value `validateFile` returned to the worker. -/
inductive Event where
  | osOpenFile (name : GoString) (err : Option Error)
  | osOpen (name : GoString) (err : Option Error)
  | osCreate (name : GoString) (err : Option Error)
  | fileStat (name : GoString) (res : Except Error Int)
  | fileClose (name : GoString) (err : Option Error)
  | ioCopy (dst src : GoString) (err : Option Error)
  | osRemove (name : GoString) (err : Option Error)
  | dial (server : GoString) (conn : Option Client) (err : Option Error)
  | sleep (d : Duration)
  | readDir (path : GoString) (err : Option Error)
  | retrieve (remote lcl : GoString) (err : Option Error)
  | delete (remote : GoString) (err : Option Error)
  | connClose
  | send (file : FileInfo)
  | receive (file : FileInfo)
  | closeChan
  | validated (name : GoString) (size : Int) (err : Option Error)
  | goBackupAndMove (tempFile destFile backupFile : GoString)
  | goMoveToDest (src dst : GoString)
  deriving DecidableEq, Repr

/-- What a function gives back: its Go return value, the calls it made, the world after. -/
structure Run (σ : Type) (α : Type) where
  val : α
  trace : List Event
  world : σ

/-! ## validateFile -/

/-- The function `validateFile(file, size)`: open, stat, compare sizes; the deferred
`s.Close()` runs on every return after a successful open. -/
def validateFile (sys : Sys σ) (file : GoString) (size : Int) (w : σ) : Run σ (Option Error) :=
  match sys.osOpen file w with
  | (some err, w1) => ⟨some err, [Event.osOpen file (some err)], w1⟩
  | (none, w1) =>
    match sys.fileStat file w1 with
    | (Except.error err3, w2) =>
      let c := sys.fileClose file w2
      ⟨some err3, [Event.osOpen file none, Event.fileStat file (Except.error err3),
        Event.fileClose file c.1], c.2⟩
    | (Except.ok lsize, w2) =>
      let c := sys.fileClose file w2
      if lsize ≠ size then
        ⟨some "CorruptFile", [Event.osOpen file none, Event.fileStat file (Except.ok lsize),
          Event.fileClose file c.1], c.2⟩
      else
        ⟨none, [Event.osOpen file none, Event.fileStat file (Except.ok lsize),
          Event.fileClose file c.1], c.2⟩

/-! ## FtpsConnect -/

/-- The 32-byte array `sessionkey` after `copy(sessionkey[:], "MyFTPsessionkey")`. -/
def sessionkey : List UInt8 := utf8 "MyFTPsessionkey" ++ List.replicate 17 0

/-- The `goftp.Config` that `FtpsConnect` builds from the protocol. -/
def dialParams (initConfig : InitConfig) : Config :=
  if initConfig.Protocol = utf8 "FTPS" then
    { User := initConfig.User, Password := initConfig.Password,
      TLSConfig := some { InsecureSkipVerify := true, SessionTicketKey := sessionkey,
                          ClientSessionCache := 1 },
      TLSMode := TLSMode.TLSExplicit }
  else
    { User := initConfig.User, Password := initConfig.Password,
      TLSConfig := none, TLSMode := TLSMode.TLSExplicit }

/-- The argument of `time.Sleep` in the retry loop:
`time.Duration(initConfig.RetryInterval) * time.Minute`. -/
def retryWait (initConfig : InitConfig) : Duration :=
  wrapInt64 (initConfig.RetryInterval * Minute)

/-- The local variables of `FtpsConnect` around its retry loop. -/
structure ConnState (σ : Type) where
  conn : Option Client
  err : Option Error
  ftpRetry : Int
  ftpError : Bool
  trace : List Event
  world : σ

/-- The loop `for ftpRetry < initConfig.ConnectRetry { ... }`. The first argument bounds the
number of iterations; `none` when it is used up. -/
def retryLoop (sys : Sys σ) (initConfig : InitConfig) (config : Config) :
    Nat → ConnState σ → Option (ConnState σ)
  | fuel, st =>
    if st.ftpRetry < initConfig.ConnectRetry then
      match fuel with
      | 0 => none
      | fuel + 1 =>
        let w1 := sys.sleep (retryWait initConfig) st.world
        let r := sys.dialConfig config initConfig.Server w1
        let tr := st.trace ++ [Event.sleep (retryWait initConfig),
          Event.dial initConfig.Server r.1.1 r.1.2]
        match r.1.2 with
        | some err2 =>
          retryLoop sys initConfig config fuel
            { conn := r.1.1, err := some err2, ftpRetry := st.ftpRetry + 1, ftpError := true,
              trace := tr, world := r.2 }
        | none =>
          some { conn := r.1.1, err := st.err, ftpRetry := st.ftpRetry + 1, ftpError := false,
                 trace := tr, world := r.2 }
    else some st

/-- The function `FtpsConnect(initConfig)`: its result is the pair `(conn, err)`. The retry
loop gets `ConnectRetry - 1` iterations, which it never exceeds. -/
def FtpsConnect (sys : Sys σ) (initConfig : InitConfig) (w : σ) :
    Option (Run σ (Option Client × Option Error)) :=
  let config := dialParams initConfig
  let r := sys.dialConfig config initConfig.Server w
  let st0 : ConnState σ :=
    { conn := r.1.1, err := r.1.2, ftpRetry := 1, ftpError := false,
      trace := [Event.dial initConfig.Server r.1.1 r.1.2], world := r.2 }
  let after : Option (ConnState σ) :=
    match r.1.2 with
    | some _ =>
      retryLoop sys initConfig config (initConfig.ConnectRetry - 1).toNat
        { st0 with ftpError := true }
    | none => some st0
  match after with
  | none => none
  | some st =>
    if st.ftpError then some ⟨(st.conn, st.err), st.trace, st.world⟩
    else some ⟨(st.conn, none), st.trace, st.world⟩

/-! ## FtpList -/

/-- The function `strings.HasSuffix(s, suffix)`:
`len(s) >= len(suffix) && s[len(s)-len(suffix):] == suffix`. -/
def HasSuffix (s suffix : GoString) : Bool :=
  decide (s.length ≥ suffix.length) && (s.drop (s.length - suffix.length) == suffix)

/-- The first loop of `FtpList`, over `fileList`, carrying `fileCount` and
`filesToDownload`. -/
def listLoop (initConfig : InitConfig) :
    List FileInfo → Int × List FileInfo → Int × List FileInfo
  | [], acc => acc
  | file :: rest, (fileCount, filesToDownload) =>
    if !file.IsDir then
      if initConfig.FileNameFilter ≠ [] then
        if !HasSuffix file.Name initConfig.FileNameFilter then
          listLoop initConfig rest (fileCount, filesToDownload)
        else
          listLoop initConfig rest (fileCount + 1, filesToDownload ++ [file])
      else
        listLoop initConfig rest (fileCount + 1, filesToDownload ++ [file])
    else
      listLoop initConfig rest (fileCount, filesToDownload)

/-- The second loop of `FtpList`: the files it sends on the channel, from index `i` on. -/
def sendLoop (maxFileCount : Int) : Nat → List FileInfo → List FileInfo
  | _, [] => []
  | i, fileName :: rest =>
    if (i : Int) > maxFileCount then []
    else fileName :: sendLoop maxFileCount (i + 1) rest

/-- The local constant `maxFileCount` of `FtpList`. -/
def maxFileCount : Int := 100

/-- The part of `FtpList` before it touches the channel: `ReadDir`, then the first loop, then
the choice of the files the second loop sends. The value is the error of `ReadDir` or the
files to send, in order. -/
def FtpListFiles (sys : Sys σ) (conn : Option Client) (initConfig : InitConfig) (w : σ) :
    Run σ (Except Error (List FileInfo)) :=
  match sys.readDir conn initConfig.FtpPath w with
  | (Except.error err, w1) =>
    ⟨Except.error err, [Event.readDir initConfig.FtpPath (some err)], w1⟩
  | (Except.ok fileList, w1) =>
    let filesToDownload := (listLoop initConfig fileList (0, [])).2
    ⟨Except.ok (sendLoop maxFileCount 0 filesToDownload),
      [Event.readDir initConfig.FtpPath none], w1⟩

/-- The function `FtpList` run to its return, as it runs while the workers keep receiving, so
that every send is taken in the end: its return value and its trace, which ends with the
deferred `close(fileChan)`. The channel itself, with its capacity `maxFiles` and a send that
blocks while it is full, is in `Pool.step`, where `FtpList` runs one send at a time. -/
def FtpList (sys : Sys σ) (conn : Option Client) (initConfig : InitConfig) (w : σ) :
    Run σ (Option Error) :=
  let r := FtpListFiles sys conn initConfig w
  match r.val with
  | Except.error err => ⟨some err, r.trace ++ [Event.closeChan], r.world⟩
  | Except.ok files => ⟨none, r.trace ++ files.map Event.send ++ [Event.closeChan], r.world⟩

/-- The files a trace sends on the channel, in order. -/
def sentFiles : List Event → List FileInfo
  | [] => []
  | Event.send file :: rest => file :: sentFiles rest
  | _ :: rest => sentFiles rest

/-! ## FtpDownloadClient -/

/-- One iteration of the loop of `FtpDownloadClient`, for the entry `file`. The value is
`some err` when the iteration ends in `return err` and `none` when the loop goes on. -/
def downloadFile (sys : Sys σ) (conn : Option Client) (initConfig : InitConfig)
    (file : FileInfo) (w : σ) : Run σ (Option Error) :=
  let remoteFile := initConfig.FtpPath ++ file.Name
  let localName := initConfig.LocalTempPath ++ file.Name
  match sys.osCreate localName w with
  | (some err, w1) => ⟨some err, [Event.osCreate localName (some err)], w1⟩
  | (none, w1) =>
    match sys.retrieve conn remoteFile localName w1 with
    | (some err2, w2) =>
      ⟨some err2, [Event.osCreate localName none,
        Event.retrieve remoteFile localName (some err2)], w2⟩
    | (none, w2) =>
      let c := sys.fileClose localName w2
      let v := validateFile sys (initConfig.LocalTempPath ++ file.Name) file.Size c.2
      let pre := [Event.osCreate localName none, Event.retrieve remoteFile localName none,
        Event.fileClose localName c.1] ++ v.trace
      match v.val with
      | some err =>
        ⟨some err, pre ++ [Event.validated (initConfig.LocalTempPath ++ file.Name) file.Size
          (some err)], v.world⟩
      | none =>
        let d := sys.delete conn (initConfig.FtpPath ++ file.Name) v.world
        ⟨none, pre ++ [Event.validated (initConfig.LocalTempPath ++ file.Name) file.Size none,
          Event.delete (initConfig.FtpPath ++ file.Name) d.1,
          Event.goBackupAndMove (initConfig.LocalTempPath ++ file.Name)
            (initConfig.LocalPath ++ file.Name) (initConfig.BackupPath ++ file.Name)], d.2⟩

/-- The return value of a worker, its `downloadCount`, and the entries it left in the queue. -/
structure WorkerExit where
  err : Option Error
  downloadCount : Int
  left : List FileInfo
  deriving DecidableEq, Repr

/-- The function `FtpDownloadClient`, run on the entries the channel delivers to this worker
for as long as it keeps receiving: `for file := range fileChan`. -/
def FtpDownloadClient (sys : Sys σ) (conn : Option Client) (initConfig : InitConfig) :
    List FileInfo → Int → σ → Run σ WorkerExit
  | [], downloadCount, w => ⟨⟨none, downloadCount, []⟩, [], w⟩
  | file :: rest, downloadCount, w =>
    let r := downloadFile sys conn initConfig file w
    match r.val with
    | some err => ⟨⟨some err, downloadCount, rest⟩, Event.receive file :: r.trace, r.world⟩
    | none =>
      let k := FtpDownloadClient sys conn initConfig rest (downloadCount + 1) r.world
      ⟨k.val, Event.receive file :: r.trace ++ k.trace, k.world⟩

/-! ## The commit stage -/

/-- The function `copyToDest(src, dst)`. The deferred `s.Close()` runs on every return after
the source was opened, also after the explicit `s.Close()` of the last path. -/
def copyToDest (sys : Sys σ) (src dst : GoString) (w : σ) : Run σ (Option Error) :=
  let w0 := sys.sleep (5 * Second) w
  match sys.osOpen src w0 with
  | (some err, w1) => ⟨some err, [Event.sleep (5 * Second), Event.osOpen src (some err)], w1⟩
  | (none, w1) =>
    match sys.osCreate dst w1 with
    | (some err, w2) =>
      let cs := sys.fileClose src w2
      ⟨some err, [Event.sleep (5 * Second), Event.osOpen src none,
        Event.osCreate dst (some err), Event.fileClose src cs.1], cs.2⟩
    | (none, w2) =>
      match sys.ioCopy dst src w2 with
      | (some err, w3) =>
        let cd := sys.fileClose dst w3
        let cs := sys.fileClose src cd.2
        ⟨some err, [Event.sleep (5 * Second), Event.osOpen src none, Event.osCreate dst none,
          Event.ioCopy dst src (some err), Event.fileClose dst cd.1,
          Event.fileClose src cs.1], cs.2⟩
      | (none, w3) =>
        let cd := sys.fileClose dst w3
        let cs := sys.fileClose src cd.2
        let cs2 := sys.fileClose src cs.2
        ⟨none, [Event.sleep (5 * Second), Event.osOpen src none, Event.osCreate dst none,
          Event.ioCopy dst src none, Event.fileClose dst cd.1, Event.fileClose src cs.1,
          Event.fileClose src cs2.1], cs2.2⟩

/-- The function `moveToDest(src, dst)`. -/
def moveToDest (sys : Sys σ) (src dst : GoString) (w : σ) : Run σ Unit :=
  let r := copyToDest sys src dst w
  match r.val with
  | some _ => ⟨(), r.trace, r.world⟩
  | none =>
    let w1 := sys.sleep (5 * Second) r.world
    let d := sys.osRemove src w1
    ⟨(), r.trace ++ [Event.sleep (5 * Second), Event.osRemove src d.1], d.2⟩

/-- The function `backupAndMove(tempFile, destFile, backupFile)`: the copy to the destination
runs in the caller, then `moveToDest(tempFile, backupFile)` is started as a goroutine. -/
def backupAndMove (sys : Sys σ) (tempFile destFile backupFile : GoString) (w : σ) :
    Run σ Unit :=
  let r := copyToDest sys tempFile destFile w
  ⟨(), r.trace ++ [Event.goMoveToDest tempFile backupFile], r.world⟩

/-! ## StartFtpDownload and its goroutines -/

/-- A goroutine started by `StartFtpDownload` or by one of its goroutines.
`lister none` is `FtpList` before `ReadDir`, `lister (some files)` is `FtpList` in its
second loop with `files` still to send; `worker` is `FtpDownloadClient` with its
`downloadCount`; `commit` is `backupAndMove`; `move` is `moveToDest`; `done` has returned. -/
inductive Task where
  | lister (todo : Option (List FileInfo))
  | worker (clientNum : Int) (downloadCount : Int)
  | commit (tempFile destFile backupFile : GoString)
  | move (src dst : GoString)
  | done
  deriving DecidableEq, Repr

/-- The state shared by the goroutines: the buffered channel `fileChan`, the counter of the
wait group `wg`, the goroutines, the calls made so far and the world. -/
structure Pool (σ : Type) where
  tasks : List Task
  fileChan : List FileInfo
  closed : Bool
  wg : Int
  trace : List Event
  world : σ

/-- The local constant `maxConnection` of `StartFtpDownload`. -/
def maxConnection : Nat := 3

/-- The local constant `maxFiles` of `StartFtpDownload`, the capacity of `fileChan`. -/
def maxFiles : Nat := 50

/-- Replace the `i`-th goroutine by `t` and start the goroutines `spawned`. -/
def Pool.update (p : Pool σ) (i : Nat) (t : Task) (spawned : List Task) (wg : Int)
    (events : List Event) (w : σ) : Pool σ :=
  { p with tasks := p.tasks.set i t ++ spawned, wg := wg, trace := p.trace ++ events,
           world := w }

/-- Let the `i`-th goroutine run up to its next channel operation or its return. A send on a
full channel and a receive on an empty open channel block: the state is unchanged. One
iteration of a worker, `backupAndMove` and `moveToDest` each run in one piece. -/
def Pool.step (sys : Sys σ) (conn : Option Client) (initConfig : InitConfig) (i : Nat)
    (p : Pool σ) : Pool σ :=
  match p.tasks.get? i with
  | none => p
  | some Task.done => p
  | some (Task.lister none) =>
    let r := FtpListFiles sys conn initConfig p.world
    match r.val with
    | Except.error _ =>
      { p.update i Task.done [] (p.wg - 1) (r.trace ++ [Event.closeChan]) r.world with
        closed := true }
    | Except.ok files => p.update i (Task.lister (some files)) [] p.wg r.trace r.world
  | some (Task.lister (some [])) =>
    { p.update i Task.done [] (p.wg - 1) [Event.closeChan] p.world with closed := true }
  | some (Task.lister (some (file :: rest))) =>
    if p.fileChan.length < maxFiles then
      { p.update i (Task.lister (some rest)) [] p.wg [Event.send file] p.world with
        fileChan := p.fileChan ++ [file] }
    else p
  | some (Task.worker clientNum downloadCount) =>
    match p.fileChan with
    | [] => if p.closed then p.update i Task.done [] (p.wg - 1) [] p.world else p
    | file :: queue =>
      let r := downloadFile sys conn initConfig file p.world
      match r.val with
      | some _ =>
        { p.update i Task.done [] (p.wg - 1) (Event.receive file :: r.trace) r.world with
          fileChan := queue }
      | none =>
        { p.update i (Task.worker clientNum (downloadCount + 1))
            [Task.commit (initConfig.LocalTempPath ++ file.Name)
              (initConfig.LocalPath ++ file.Name) (initConfig.BackupPath ++ file.Name)]
            (p.wg + 1) (Event.receive file :: r.trace) r.world with
          fileChan := queue }
  | some (Task.commit tempFile destFile backupFile) =>
    let r := backupAndMove sys tempFile destFile backupFile p.world
    p.update i Task.done [Task.move tempFile backupFile] (p.wg + 1 - 1 + 1 - 1) r.trace r.world
  | some (Task.move src dst) =>
    let r := moveToDest sys src dst p.world
    p.update i Task.done [] (p.wg + 1 - 1 - 1) r.trace r.world

/-- The goroutines run in the order `sched` names them until the counter of `wg` is zero,
where `wg.Wait()` returns; `none` when the schedule ends before that. -/
def Pool.run (sys : Sys σ) (conn : Option Client) (initConfig : InitConfig) :
    List Nat → Pool σ → Option (Pool σ)
  | sched, p =>
    if p.wg = 0 then some p
    else
      match sched with
      | [] => none
      | i :: rest => Pool.run sys conn initConfig rest (Pool.step sys conn initConfig i p)

/-- The function `StartFtpDownload(initConfig)` under the schedule `sched` of its goroutines:
its return value, or `none` when it has not returned by the end of the schedule. -/
def StartFtpDownload (sys : Sys σ) (initConfig : InitConfig) (sched : List Nat) (w : σ) :
    Option (Run σ (Option Error)) :=
  let date := sys.today w
  let logFileName := initConfig.LogFile ++ utf8 "_" ++ date.1 ++ utf8 ".txt"
  match sys.osOpenFile logFileName date.2 with
  | (some err, w1) => some ⟨some err, [Event.osOpenFile logFileName (some err)], w1⟩
  | (none, w1) =>
    match FtpsConnect sys initConfig w1 with
    | none => none
    | some c =>
      match c.val.2 with
      | some err =>
        let f := sys.fileClose logFileName c.world
        some ⟨some err, Event.osOpenFile logFileName none :: c.trace ++
          [Event.fileClose logFileName f.1], f.2⟩
      | none =>
        let conn := c.val.1
        let p0 : Pool σ :=
          { tasks := Task.lister none ::
              (List.range maxConnection).map (fun i => Task.worker ((i : Int) + 1) 0),
            fileChan := [], closed := false, wg := 1 + maxConnection,
            trace := Event.osOpenFile logFileName none :: c.trace, world := c.world }
        match Pool.run sys conn initConfig sched p0 with
        | none => none
        | some p =>
          let cc := sys.connClose conn p.world
          let f := sys.fileClose logFileName cc.2
          some ⟨none, p.trace ++ [Event.connClose, Event.fileClose logFileName f.1], f.2⟩

/-! ## Vocabulary of the statements -/

/-- The world in which a run of `FtpsConnect` started in `w` makes its dial attempt number
`k + 1`, when all attempts before it failed: each retry sleeps, then dials. -/
def dialWorld (sys : Sys σ) (initConfig : InitConfig) (w : σ) : Nat → σ
  | 0 => w
  | k + 1 =>
    sys.sleep (retryWait initConfig)
      (sys.dialConfig (dialParams initConfig) initConfig.Server
        (dialWorld sys initConfig w k)).2

/-- The result of dial attempt number `k + 1`: the pair `(conn, err)` and the world after. -/
def dialAttempt (sys : Sys σ) (initConfig : InitConfig) (w : σ) (k : Nat) :
    (Option Client × Option Error) × σ :=
  sys.dialConfig (dialParams initConfig) initConfig.Server (dialWorld sys initConfig w k)

/-- The event of dial attempt number `k + 1`. -/
def dialEvent (sys : Sys σ) (initConfig : InitConfig) (w : σ) (k : Nat) : Event :=
  Event.dial initConfig.Server (dialAttempt sys initConfig w k).1.1
    (dialAttempt sys initConfig w k).1.2

/-- The trace of `k + 1` dial attempts: the first one, then `k` retries, each a sleep
followed by a dial. -/
def connectTrace (sys : Sys σ) (initConfig : InitConfig) (w : σ) : Nat → List Event
  | 0 => [dialEvent sys initConfig w 0]
  | k + 1 =>
    connectTrace sys initConfig w k ++
      [Event.sleep (retryWait initConfig), dialEvent sys initConfig w (k + 1)]

/-- The number of dial attempts in a trace. -/
def dialCount : List Event → Nat
  | [] => 0
  | Event.dial _ _ _ :: rest => dialCount rest + 1
  | _ :: rest => dialCount rest

/-- The arguments of the `time.Sleep` calls in a trace, in order. -/
def sleeps : List Event → List Duration
  | [] => []
  | Event.sleep d :: rest => d :: sleeps rest
  | _ :: rest => sleeps rest

/-- The variables of `FtpsConnect` after `k + 1` dial attempts that all failed. -/
def stateAfter (sys : Sys σ) (initConfig : InitConfig) (w : σ) (k : Nat) : ConnState σ :=
  { conn := (dialAttempt sys initConfig w k).1.1,
    err := (dialAttempt sys initConfig w k).1.2,
    ftpRetry := (k : Int) + 1, ftpError := true,
    trace := connectTrace sys initConfig w k,
    world := (dialAttempt sys initConfig w k).2 }

/-- The value `FtpsConnect` returns from the variables its loop leaves. -/
def connectResult (st : ConnState σ) : Run σ (Option Client × Option Error) :=
  if st.ftpError then ⟨(st.conn, st.err), st.trace, st.world⟩
  else ⟨(st.conn, none), st.trace, st.world⟩

/-- An entry of the listing is eligible when it is not a directory and the configured
`FileNameFilter` is empty or the name of the entry ends with it. -/
def Eligible (initConfig : InitConfig) (file : FileInfo) : Prop :=
  file.IsDir = false ∧
    (initConfig.FileNameFilter = [] ∨ initConfig.FileNameFilter <:+ file.Name)

instance (initConfig : InitConfig) (file : FileInfo) : Decidable (Eligible initConfig file) :=
  inferInstanceAs (Decidable (_ ∧ _))

/-- The listing restricted to its eligible entries, in listing order. -/
def eligibleFiles (initConfig : InitConfig) (fileList : List FileInfo) : List FileInfo :=
  fileList.filter (fun file => decide (Eligible initConfig file))

/-- The events of a worker that are neither a return of `validateFile`, nor a remote
delete, nor the start of a commit: receiving an entry and the calls that create, fill,
close, open and stat the staged file. -/
def Event.isTransferStep : Event → Bool
  | Event.receive _ => true
  | Event.osCreate _ _ => true
  | Event.retrieve _ _ _ => true
  | Event.fileClose _ _ => true
  | Event.osOpen _ _ => true
  | Event.fileStat _ _ => true
  | _ => false

/-- The events of a trace in which a worker receives an entry. -/
def receivedFiles : List Event → List FileInfo
  | [] => []
  | Event.receive file :: rest => file :: receivedFiles rest
  | _ :: rest => receivedFiles rest

/-- One run of the commit stage of a file: `backupAndMove`, then the goroutine `moveToDest`
it started, with no other call in between. -/
def commitStage (sys : Sys σ) (tempFile destFile backupFile : GoString) (w : σ) : Run σ Unit :=
  let a := backupAndMove sys tempFile destFile backupFile w
  let b := moveToDest sys tempFile backupFile a.world
  ⟨(), a.trace ++ b.trace, b.world⟩

/-- The goroutines run in the order `sched` names them, one step each, from the state `p`. -/
def Pool.steps (sys : Sys σ) (conn : Option Client) (initConfig : InitConfig)
    (sched : List Nat) (p : Pool σ) : Pool σ :=
  sched.foldl (fun q i => Pool.step sys conn initConfig i q) p

/-- No goroutine other than the first is `FtpList`. -/
def Pool.oneLister (p : Pool σ) : Prop :=
  ∀ t ∈ p.tasks.tail, ∀ todo, t ≠ Task.lister todo

/-- Where `FtpList` stands in a pool that started as `p0` with the files `files` to send, and
the number `todo` of steps `FtpList` still needs: it has not run yet and the pool is still
`p0`; or it is in its second loop with `rest` still to send, the channel has room for all of
`rest`, and the files sent so far followed by `rest` are `files`; or it has returned, the
channel is closed and the files sent are `files`. -/
def Pool.listerAt (p0 : Pool σ) (files : List FileInfo) (p : Pool σ) (todo : Nat) : Prop :=
  (p = p0 ∧ todo = files.length + 2) ∨
  (p.oneLister ∧ ∃ rest, p.tasks.get? 0 = some (Task.lister (some rest)) ∧
    sentFiles p.trace ++ rest = sentFiles p0.trace ++ files ∧
    p.fileChan.length + rest.length ≤ maxFiles ∧ todo = rest.length + 1) ∨
  (p.oneLister ∧ p.tasks.get? 0 = some Task.done ∧
    sentFiles p.trace = sentFiles p0.trace ++ files ∧ p.closed = true ∧ todo = 0)

/-- Where `FtpList` stands in a pool that started as `p0` with the files `files` to send,
whatever the room in the channel: it has not run yet and the pool is still `p0`; or it is in
its second loop with `rest` still to send and the files sent so far followed by `rest` are
`files`; or it has returned, the channel is closed and the files sent are `files`. -/
def Pool.listerSafe (p0 : Pool σ) (files : List FileInfo) (p : Pool σ) : Prop :=
  p = p0 ∨
  (p.oneLister ∧ ∃ rest, p.tasks.get? 0 = some (Task.lister (some rest)) ∧
    sentFiles p.trace ++ rest = sentFiles p0.trace ++ files) ∨
  (p.oneLister ∧ p.tasks.get? 0 = some Task.done ∧
    sentFiles p.trace = sentFiles p0.trace ++ files ∧ p.closed = true)

/-- A goroutine that has not returned yet. -/
def Task.alive : Task → Bool
  | Task.done => false
  | _ => true

/-- The pool as `StartFtpDownload` starts it after connecting, in the world `w`: `FtpList`
and the workers 1, 2 and 3, an empty open channel, nothing sent yet. -/
def startPool (w : σ) : Pool σ :=
  { tasks := Task.lister none ::
      (List.range maxConnection).map (fun i => Task.worker ((i : Int) + 1) 0),
    fileChan := [], closed := false, wg := 1 + maxConnection, trace := [], world := w }

/-! ## Concrete worlds -/

/-- A world in which every call succeeds; its state counts the dial attempts made. Every
staged file has size 1000 and the remote directory is empty. -/
def okSys : Sys Nat where
  osOpenFile := fun _ n => (none, n)
  osOpen := fun _ n => (none, n)
  osCreate := fun _ n => (none, n)
  fileStat := fun _ n => (Except.ok 1000, n)
  fileClose := fun _ n => (none, n)
  ioCopy := fun _ _ n => (none, n)
  osRemove := fun _ n => (none, n)
  dialConfig := fun _ _ n => ((some 1, none), n + 1)
  sleep := fun _ n => n
  readDir := fun _ _ n => (Except.ok [], n)
  retrieve := fun _ _ _ n => (none, n)
  delete := fun _ _ n => (none, n)
  connClose := fun _ n => (none, n)
  today := fun n => (utf8 "20240131", n)

/-- A server that refuses the first `fails` dial attempts and accepts the later ones. -/
def flakySys (fails : Nat) : Sys Nat :=
  { okSys with
    dialConfig := fun _ _ n =>
      if n < fails then ((none, some "connection refused"), n + 1)
      else ((some (n + 1), none), n + 1) }

/-- A server that refuses every dial attempt, with an error that names the attempt. -/
def deadSys : Sys Nat :=
  { okSys with
    dialConfig := fun _ _ n => ((none, some (if n = 0 then "refused first"
      else if n = 1 then "refused second" else "refused later")), n + 1) }

/-- A configuration with the given retry settings and name filter. -/
def sampleConfig (connectRetry retryInterval : Int) (filter : GoString) : InitConfig :=
  { Title := utf8 "sample", User := utf8 "user", Password := utf8 "secret",
    Server := utf8 "ftp.example.org", Protocol := utf8 "FTPS", TLSMode := utf8 "Explicit",
    LocalTempPath := utf8 "/tmp/", LocalPath := utf8 "/data/", BackupPath := utf8 "/backup/",
    FtpPath := utf8 "/out/", FileNameFilter := filter, ConnectRetry := connectRetry,
    RetryInterval := retryInterval, LogFile := utf8 "ftps" }

/-- A regular file of the given name and size. -/
def regularFile (name : GoString) (size : Int) : FileInfo :=
  { Name := name, Size := size, IsDir := false, ModTime := 0, Mode := 420 }

/-- A world like `okSys` whose remote directory lists `files`. -/
def listingSys (files : List FileInfo) : Sys Nat :=
  { okSys with readDir := fun _ _ n => (Except.ok files, n) }

/-- A world like `okSys` whose remote directory cannot be listed. -/
def unlistableSys : Sys Nat :=
  { okSys with readDir := fun _ _ n => (Except.error "550 no such directory", n) }

/-- Five remote files, three of them with a name that ends in `.csv`. -/
def fiveFiles : List FileInfo :=
  [regularFile (utf8 "a.csv") 1000, regularFile (utf8 "notes.txt") 1000,
   regularFile (utf8 "b.csv") 1000, regularFile (utf8 "csv") 1000,
   regularFile (utf8 "c.csv") 1000]

/-- A listing of `n` regular files with the one-byte names `0`, `1`, ... -/
def manyFiles (n : Nat) : List FileInfo :=
  (List.range n).map (fun i => regularFile [UInt8.ofNat i] 1000)

/-- A world like `okSys` in which every staged file has size 990. -/
def shortSys : Sys Nat :=
  { okSys with fileStat := fun _ n => (Except.ok 990, n) }

/-- A world like `okSys` in which the staged file `/tmp/a.csv` cannot be created. -/
def lockedSys : Sys Nat :=
  { okSys with
    osCreate := fun name n =>
      if name = utf8 "/tmp/a.csv" then (some "permission denied", n) else (none, n) }

/-- A world that lists `files` and in which no staged file can be created. -/
def fullDiskSys (files : List FileInfo) : Sys Nat :=
  { okSys with
    readDir := fun _ _ n => (Except.ok files, n)
    osCreate := fun _ n => (some "no space left on device", n) }

/-- A world like `okSys` in which closing the backup file `/backup/a.csv` fails. -/
def badCloseSys : Sys Nat :=
  { okSys with
    fileClose := fun name n =>
      if name = utf8 "/backup/a.csv" then (some "input/output error", n) else (none, n) }

/-- A world like `okSys` in which the destination file `/data/a.csv` cannot be created. -/
def noDestSys : Sys Nat :=
  { okSys with
    osCreate := fun name n =>
      if name = utf8 "/data/a.csv" then (some "permission denied", n) else (none, n) }

/-! ## Theorems -/

/-! ### validateFile -/

/-- C6: when the local file can be opened and stat'ed, `validateFile` returns the error
`CorruptFile` exactly when the observed size differs from the expected size, and returns
nil exactly when the two sizes are equal. -/
theorem validateFile_corrupt_iff_size_differs (sys : Sys σ) (file : GoString)
    (size lsize : Int) (w w1 w2 : σ)
    (hopen : sys.osOpen file w = (none, w1))
    (hstat : sys.fileStat file w1 = (Except.ok lsize, w2)) :
    ((validateFile sys file size w).val = some "CorruptFile" ↔ lsize ≠ size) ∧
    ((validateFile sys file size w).val = none ↔ lsize = size) := by
  unfold validateFile
  simp only [hopen, hstat]
  by_cases h : lsize = size
  · simp [h]
  · simp [h]

/-- C6 at a concrete input: a staged file of size 1000 against the expected sizes 990. -/
theorem validateFile_corrupt_iff_size_differs_witness :
    ((validateFile okSys (utf8 "/tmp/a.csv") 990 0).val = some "CorruptFile" ↔
      (1000 : Int) ≠ 990) ∧
    ((validateFile okSys (utf8 "/tmp/a.csv") 990 0).val = none ↔ (1000 : Int) = 990) :=
  validateFile_corrupt_iff_size_differs okSys (utf8 "/tmp/a.csv") 990 1000 0 0 0 rfl rfl

/-! ### FtpsConnect -/

theorem dialCount_append (a b : List Event) : dialCount (a ++ b) = dialCount a + dialCount b := by
  induction a with
  | nil => simp [dialCount]
  | cons e rest ih => cases e <;> simp [dialCount, ih]; omega

theorem sleeps_append (a b : List Event) : sleeps (a ++ b) = sleeps a ++ sleeps b := by
  induction a with
  | nil => simp [sleeps]
  | cons e rest ih => cases e <;> simp [sleeps, ih]

theorem dialCount_connectTrace (sys : Sys σ) (initConfig : InitConfig) (w : σ) (k : Nat) :
    dialCount (connectTrace sys initConfig w k) = k + 1 := by
  induction k with
  | zero => simp [connectTrace, dialEvent, dialCount]
  | succ k ih => simp [connectTrace, dialCount_append, ih, dialEvent, dialCount]

theorem sleeps_connectTrace (sys : Sys σ) (initConfig : InitConfig) (w : σ) (k : Nat) :
    sleeps (connectTrace sys initConfig w k) = List.replicate k (retryWait initConfig) := by
  induction k with
  | zero => simp [connectTrace, dialEvent, sleeps]
  | succ k ih =>
    simp [connectTrace, sleeps_append, ih, dialEvent, sleeps, List.replicate_succ']

/-- A retry whose dial fails leaves the loop in the state after one more failed attempt. -/
theorem retryLoop_fail_step (sys : Sys σ) (initConfig : InitConfig) (w : σ) (k fuel : Nat)
    (hlt : (k : Int) + 1 < initConfig.ConnectRetry)
    (hfail : (dialAttempt sys initConfig w (k + 1)).1.2 ≠ none) :
    retryLoop sys initConfig (dialParams initConfig) (fuel + 1) (stateAfter sys initConfig w k)
      = retryLoop sys initConfig (dialParams initConfig) fuel
          (stateAfter sys initConfig w (k + 1)) := by
  obtain ⟨e, he⟩ := Option.ne_none_iff_exists'.mp hfail
  have he2 : (sys.dialConfig (dialParams initConfig) initConfig.Server
      (sys.sleep (retryWait initConfig)
        (sys.dialConfig (dialParams initConfig) initConfig.Server
          (dialWorld sys initConfig w k)).2)).1.2 = some e := he
  rw [retryLoop]
  simp only [stateAfter, hlt, if_true, dialAttempt]
  rw [he2]
  simp only [connectTrace, dialEvent, dialAttempt, dialWorld, he2, Nat.cast_add, Nat.cast_one]

/-- A run of failed retries: `j` iterations of the loop, each with a failing dial. -/
theorem retryLoop_fail_steps (sys : Sys σ) (initConfig : InitConfig) (w : σ) (fuel : Nat) :
    ∀ (j k : Nat), ((k : Int) + (j : Int) + 1 ≤ initConfig.ConnectRetry) →
      (∀ i, k < i → i ≤ k + j → (dialAttempt sys initConfig w i).1.2 ≠ none) →
      retryLoop sys initConfig (dialParams initConfig) (fuel + j)
          (stateAfter sys initConfig w k)
        = retryLoop sys initConfig (dialParams initConfig) fuel
            (stateAfter sys initConfig w (k + j)) := by
  intro j
  induction j with
  | zero => intro k _ _; rfl
  | succ j ih =>
    intro k hle hfail
    have h1 : fuel + (j + 1) = (fuel + j) + 1 := by omega
    rw [h1, retryLoop_fail_step sys initConfig w k (fuel + j) (by push_cast at hle; omega)
      (hfail (k + 1) (by omega) (by omega))]
    have h2 : k + (j + 1) = (k + 1) + j := by omega
    rw [h2]
    exact ih (k + 1) (by push_cast at hle ⊢; omega)
      (fun i hi1 hi2 => hfail i (by omega) (by omega))

/-- The loop stops when the attempts are used up. -/
theorem retryLoop_exhausted (sys : Sys σ) (initConfig : InitConfig) (fuel : Nat)
    (st : ConnState σ) (h : ¬ st.ftpRetry < initConfig.ConnectRetry) :
    retryLoop sys initConfig (dialParams initConfig) fuel st = some st := by
  cases fuel <;> simp [retryLoop, h]

/-- A retry whose dial succeeds leaves the loop. -/
theorem retryLoop_success_step (sys : Sys σ) (initConfig : InitConfig) (w : σ) (k fuel : Nat)
    (hlt : (k : Int) + 1 < initConfig.ConnectRetry)
    (hok : (dialAttempt sys initConfig w (k + 1)).1.2 = none) :
    retryLoop sys initConfig (dialParams initConfig) (fuel + 1) (stateAfter sys initConfig w k)
      = some { conn := (dialAttempt sys initConfig w (k + 1)).1.1,
               err := (dialAttempt sys initConfig w k).1.2,
               ftpRetry := (k : Int) + 1 + 1, ftpError := false,
               trace := connectTrace sys initConfig w (k + 1),
               world := (dialAttempt sys initConfig w (k + 1)).2 } := by
  have he2 : (sys.dialConfig (dialParams initConfig) initConfig.Server
      (sys.sleep (retryWait initConfig)
        (sys.dialConfig (dialParams initConfig) initConfig.Server
          (dialWorld sys initConfig w k)).2)).1.2 = none := hok
  rw [retryLoop]
  simp only [stateAfter, hlt, if_true, dialAttempt]
  rw [he2]
  simp only [connectTrace, dialEvent, dialAttempt, dialWorld, he2]

/-- The retry loop ends within `ConnectRetry - ftpRetry` iterations, whatever the dials do. -/
theorem retryLoop_total (sys : Sys σ) (initConfig : InitConfig) (config : Config) :
    ∀ (fuel : Nat) (st : ConnState σ),
      (initConfig.ConnectRetry - st.ftpRetry).toNat ≤ fuel →
      ∃ st2, retryLoop sys initConfig config fuel st = some st2 := by
  intro fuel
  induction fuel with
  | zero =>
    intro st hfuel
    exact ⟨st, by rw [retryLoop]; simp; omega⟩
  | succ fuel ih =>
    intro st hfuel
    rw [retryLoop]
    by_cases hlt : st.ftpRetry < initConfig.ConnectRetry
    · simp only [hlt, if_true]
      split
      · exact ih _ (by simp only; omega)
      · exact ⟨_, rfl⟩
    · exact ⟨st, by simp [hlt]⟩

theorem FtpsConnect_first_ok (sys : Sys σ) (initConfig : InitConfig) (w : σ)
    (hok : (dialAttempt sys initConfig w 0).1.2 = none) :
    FtpsConnect sys initConfig w =
      some ⟨((dialAttempt sys initConfig w 0).1.1, none), connectTrace sys initConfig w 0,
        (dialAttempt sys initConfig w 0).2⟩ := by
  have h0 : (sys.dialConfig (dialParams initConfig) initConfig.Server w).1.2 = none := hok
  simp only [FtpsConnect, h0, connectTrace, dialEvent, dialAttempt, dialWorld]
  simp

theorem FtpsConnect_first_fail (sys : Sys σ) (initConfig : InitConfig) (w : σ)
    (hfail : (dialAttempt sys initConfig w 0).1.2 ≠ none) :
    FtpsConnect sys initConfig w =
      (retryLoop sys initConfig (dialParams initConfig) (initConfig.ConnectRetry - 1).toNat
        (stateAfter sys initConfig w 0)).map connectResult := by
  obtain ⟨e, he⟩ := Option.ne_none_iff_exists'.mp hfail
  have h0 : (sys.dialConfig (dialParams initConfig) initConfig.Server w).1.2 = some e := he
  simp only [FtpsConnect, h0, stateAfter, connectTrace, dialEvent, dialAttempt, dialWorld,
    Nat.cast_zero, zero_add]
  cases retryLoop sys initConfig (dialParams initConfig) (initConfig.ConnectRetry - 1).toNat
      { conn := (sys.dialConfig (dialParams initConfig) initConfig.Server w).1.1,
        err := some e, ftpRetry := 1, ftpError := true,
        trace := [Event.dial initConfig.Server
          (sys.dialConfig (dialParams initConfig) initConfig.Server w).1.1 (some e)],
        world := (sys.dialConfig (dialParams initConfig) initConfig.Server w).2 } with
  | none => rfl
  | some st => simp only [Option.map, connectResult]; split <;> rfl

/-- The function `FtpsConnect` returns in every world and for every configuration. -/
theorem FtpsConnect_total (sys : Sys σ) (initConfig : InitConfig) (w : σ) :
    ∃ r, FtpsConnect sys initConfig w = some r := by
  by_cases h : (dialAttempt sys initConfig w 0).1.2 = none
  · exact ⟨_, FtpsConnect_first_ok sys initConfig w h⟩
  · obtain ⟨st2, hst2⟩ := retryLoop_total sys initConfig (dialParams initConfig)
      (initConfig.ConnectRetry - 1).toNat (stateAfter sys initConfig w 0)
      (by simp [stateAfter])
    exact ⟨connectResult st2, by rw [FtpsConnect_first_fail sys initConfig w h, hst2]; rfl⟩

theorem retryWait_exact (initConfig : InitConfig)
    (h : -2 ^ 63 ≤ initConfig.RetryInterval * Minute ∧
      initConfig.RetryInterval * Minute < 2 ^ 63) :
    retryWait initConfig = initConfig.RetryInterval * Minute := by
  unfold retryWait wrapInt64
  generalize initConfig.RetryInterval * Minute = a at h ⊢
  obtain ⟨h1, h2⟩ := h
  rw [Int.emod_eq_of_lt (by linarith) (by linarith)]
  ring

/-- C7: with `ConnectRetry = N >= 1` and a server whose first `N - 1` dial attempts fail and
whose `N`-th succeeds, `FtpsConnect` returns the connection of the `N`-th attempt with a nil
error; its trace is the first dial followed by `N - 1` retries, each a sleep of
`time.Duration(RetryInterval) * time.Minute` and then a dial, so it dials exactly `N` times
and sleeps exactly `N - 1` times, `(N - 1) * RetryInterval` minutes in all whenever
`RetryInterval` minutes is a representable duration. -/
theorem FtpsConnect_retry_success (sys : Sys σ) (initConfig : InitConfig) (w : σ) (N : Nat)
    (hN : 1 ≤ N) (hR : initConfig.ConnectRetry = (N : Int))
    (hfail : ∀ k, k + 1 < N → (dialAttempt sys initConfig w k).1.2 ≠ none)
    (hok : (dialAttempt sys initConfig w (N - 1)).1.2 = none) :
    ∃ r, FtpsConnect sys initConfig w = some r ∧
      r.val = ((dialAttempt sys initConfig w (N - 1)).1.1, none) ∧
      r.trace = connectTrace sys initConfig w (N - 1) ∧
      dialCount r.trace = N ∧
      sleeps r.trace = List.replicate (N - 1) (retryWait initConfig) ∧
      (sleeps r.trace).sum = ((N : Int) - 1) * retryWait initConfig ∧
      ((-2 ^ 63 ≤ initConfig.RetryInterval * Minute ∧
          initConfig.RetryInterval * Minute < 2 ^ 63) →
        (sleeps r.trace).sum = ((N : Int) - 1) * (initConfig.RetryInterval * Minute)) := by
  have hcount : dialCount (connectTrace sys initConfig w (N - 1)) = N := by
    rw [dialCount_connectTrace]; omega
  have hsleeps := sleeps_connectTrace sys initConfig w (N - 1)
  have hsum : (sleeps (connectTrace sys initConfig w (N - 1))).sum
      = ((N : Int) - 1) * retryWait initConfig := by
    rw [hsleeps, List.sum_replicate, nsmul_eq_mul, Nat.cast_sub hN, Nat.cast_one]
  have hexact : (-2 ^ 63 ≤ initConfig.RetryInterval * Minute ∧
      initConfig.RetryInterval * Minute < 2 ^ 63) →
      (sleeps (connectTrace sys initConfig w (N - 1))).sum
        = ((N : Int) - 1) * (initConfig.RetryInterval * Minute) := by
    intro h
    rw [hsum, retryWait_exact initConfig h]
  by_cases h1 : N = 1
  · subst h1
    exact ⟨_, FtpsConnect_first_ok sys initConfig w hok, rfl, rfl, hcount, hsleeps, hsum, hexact⟩
  · obtain ⟨j, hj⟩ : ∃ j, N = j + 2 := ⟨N - 2, by omega⟩
    subst hj
    have hfuel : (initConfig.ConnectRetry - 1).toNat = 1 + j := by rw [hR]; push_cast; omega
    have hrun := retryLoop_fail_steps sys initConfig w 1 j 0
      (by rw [hR]; push_cast; omega) (fun i _ hi2 => hfail i (by omega))
    have hlast := retryLoop_success_step sys initConfig w (0 + j) 0
      (by rw [hR]; push_cast; omega) (by simpa [Nat.add_comm] using hok)
    refine ⟨⟨((dialAttempt sys initConfig w (j + 2 - 1)).1.1, none),
      connectTrace sys initConfig w (j + 2 - 1), (dialAttempt sys initConfig w (j + 2 - 1)).2⟩,
      ?_, rfl, rfl, hcount, hsleeps, hsum, hexact⟩
    rw [FtpsConnect_first_fail sys initConfig w (hfail 0 (by omega)), hfuel, hrun, hlast]
    simp [connectResult]

/-- C7 at a concrete input: `ConnectRetry = 3`, `RetryInterval = 5`, a server that refuses
two dial attempts and accepts the third. -/
theorem FtpsConnect_retry_success_witness :
    ∃ r, FtpsConnect (flakySys 2) (sampleConfig 3 5 []) 0 = some r ∧
      r.val = (some 3, none) ∧ dialCount r.trace = 3 ∧
      sleeps r.trace = [300000000000, 300000000000] ∧
      (sleeps r.trace).sum = (3 - 1) * (5 * Minute) := by
  obtain ⟨r, hr, hval, _, hcount, hsleeps, _, hsum⟩ :=
    FtpsConnect_retry_success (flakySys 2) (sampleConfig 3 5 []) 0 3 (by decide) rfl
      (by
        intro k hk
        have hk2 : k < 2 := by omega
        interval_cases k <;> decide)
      (by decide)
  refine ⟨r, hr, ?_, hcount, ?_, ?_⟩
  · rw [hval]; decide
  · rw [hsleeps]; decide
  · exact hsum (by decide)

/-- C8 (amended): when every dial attempt fails, `FtpsConnect` makes `max(ConnectRetry, 1)`
dial attempts in all, that is `ConnectRetry - 1` retries after the first attempt when
`ConnectRetry >= 1` and none when `ConnectRetry <= 1`; it sleeps
`time.Duration(RetryInterval) * time.Minute` before each retry, then stops and returns the
error of the last attempt made, which is not nil. -/
theorem FtpsConnect_retry_exhausted (sys : Sys σ) (initConfig : InitConfig) (w : σ)
    (hfail : ∀ k : Nat, (k : Int) < max initConfig.ConnectRetry 1 →
      (dialAttempt sys initConfig w k).1.2 ≠ none) :
    ∃ r, FtpsConnect sys initConfig w = some r ∧
      r.trace = connectTrace sys initConfig w ((max initConfig.ConnectRetry 1).toNat - 1) ∧
      dialCount r.trace = (max initConfig.ConnectRetry 1).toNat ∧
      sleeps r.trace =
        List.replicate ((max initConfig.ConnectRetry 1).toNat - 1) (retryWait initConfig) ∧
      r.val.2 =
        (dialAttempt sys initConfig w ((max initConfig.ConnectRetry 1).toNat - 1)).1.2 ∧
      r.val.2 ≠ none := by
  obtain ⟨j, hj⟩ : ∃ j : Nat, (max initConfig.ConnectRetry 1).toNat = j + 1 :=
    ⟨(max initConfig.ConnectRetry 1).toNat - 1, by omega⟩
  have hjR : max initConfig.ConnectRetry 1 = (j : Int) + 1 := by omega
  have hlast : (dialAttempt sys initConfig w j).1.2 ≠ none := hfail j (by omega)
  have hloop : retryLoop sys initConfig (dialParams initConfig)
      (initConfig.ConnectRetry - 1).toNat (stateAfter sys initConfig w 0)
      = some (stateAfter sys initConfig w j) := by
    by_cases h2 : initConfig.ConnectRetry ≤ 1
    · have hj0 : j = 0 := by omega
      subst hj0
      exact retryLoop_exhausted sys initConfig _ _ (by simp [stateAfter]; omega)
    · have hfuel : (initConfig.ConnectRetry - 1).toNat = 0 + j := by omega
      rw [hfuel, retryLoop_fail_steps sys initConfig w 0 j 0 (by omega)
        (fun i _ hi2 => hfail i (by omega))]
      rw [Nat.zero_add]
      exact retryLoop_exhausted sys initConfig _ _ (by simp [stateAfter]; omega)
  have hrun : FtpsConnect sys initConfig w
      = some (connectResult (stateAfter sys initConfig w j)) := by
    rw [FtpsConnect_first_fail sys initConfig w (hfail 0 (by omega)), hloop]
    rfl
  refine ⟨_, hrun, ?_, ?_, ?_, ?_, ?_⟩
  · simp [connectResult, stateAfter, hj]
  · simp [connectResult, stateAfter, hj, dialCount_connectTrace]
  · simp [connectResult, stateAfter, hj, sleeps_connectTrace]
  · simp [connectResult, stateAfter, hj]
  · simpa [connectResult, stateAfter] using hlast

/-- C8 (amended) at a concrete input: `ConnectRetry = 3` and a server that refuses every
attempt: three dial attempts, two sleeps, the error of the third attempt. -/
theorem FtpsConnect_retry_exhausted_witness :
    ∃ r, FtpsConnect deadSys (sampleConfig 3 5 []) 0 = some r ∧
      dialCount r.trace = 3 ∧ sleeps r.trace = [300000000000, 300000000000] ∧
      r.val.2 = some "refused later" := by
  obtain ⟨r, hr, _, hcount, hsleeps, hval, _⟩ :=
    FtpsConnect_retry_exhausted deadSys (sampleConfig 3 5 []) 0
      (by
        intro k hk
        have hk3 : k < 3 := by
          have h3 : max (sampleConfig 3 5 []).ConnectRetry 1 = 3 := by decide
          rw [h3] at hk
          omega
        interval_cases k <;> decide)
  refine ⟨r, hr, ?_, ?_, ?_⟩
  · rw [hcount]; decide
  · rw [hsleeps]; decide
  · rw [hval]; decide

/-- C8 as stated fails: with `ConnectRetry = 3` and a server that refuses every attempt,
`FtpsConnect` retries twice after the first attempt (three dials, two sleeps), not three
times. -/
theorem FtpsConnect_retries_fewer_than_ConnectRetry :
    ∃ r, FtpsConnect deadSys (sampleConfig 3 5 []) 0 = some r ∧
      dialCount r.trace - 1 = 2 ∧ (sleeps r.trace).length = 2 ∧
      dialCount r.trace - 1 ≠ (sampleConfig 3 5 []).ConnectRetry.toNat :=
  ⟨_, rfl, by decide, by decide, by decide⟩

/-! ### FtpList -/

theorem HasSuffix_iff (s suffix : GoString) : HasSuffix s suffix = true ↔ suffix <:+ s := by
  unfold HasSuffix
  constructor
  · intro h
    simp only [Bool.and_eq_true, decide_eq_true_eq, beq_iff_eq] at h
    rw [← h.2]
    exact List.drop_suffix _ _
  · rintro ⟨p, rfl⟩
    simp only [Bool.and_eq_true, decide_eq_true_eq, beq_iff_eq, List.length_append]
    refine ⟨by omega, ?_⟩
    exact List.drop_left' (by omega)

/-- The first loop of `FtpList` appends the eligible entries, in order, and counts them. -/
theorem listLoop_eq (initConfig : InitConfig) (fileList : List FileInfo) :
    ∀ (fileCount : Int) (filesToDownload : List FileInfo),
      listLoop initConfig fileList (fileCount, filesToDownload)
        = (fileCount + ((eligibleFiles initConfig fileList).length : Int),
            filesToDownload ++ eligibleFiles initConfig fileList) := by
  induction fileList with
  | nil => intro c acc; simp [listLoop, eligibleFiles]
  | cons file rest ih =>
    intro c acc
    have hsuf := HasSuffix_iff file.Name initConfig.FileNameFilter
    by_cases hdir : file.IsDir = true
    · simp [listLoop, hdir, ih, eligibleFiles, Eligible]
    · have hdir2 : file.IsDir = false := by simpa using hdir
      by_cases hfilter : initConfig.FileNameFilter = []
      · simp [listLoop, hdir2, hfilter, ih, eligibleFiles, Eligible]
        omega
      · by_cases hs : HasSuffix file.Name initConfig.FileNameFilter = true
        · have hs2 := hsuf.mp hs
          simp [listLoop, hdir2, hfilter, hs, hs2, ih, eligibleFiles, Eligible]
          omega
        · have hs2 : ¬ initConfig.FileNameFilter <:+ file.Name := fun h => hs (hsuf.mpr h)
          simp [listLoop, hdir2, hfilter, hs, hs2, ih, eligibleFiles, Eligible]

/-- The second loop of `FtpList` sends the files with an index up to `maxFileCount`. -/
theorem sendLoop_eq_take (m : Int) (files : List FileInfo) :
    ∀ i : Nat, sendLoop m i files = files.take (m + 1 - i).toNat := by
  induction files with
  | nil => intro i; simp [sendLoop]
  | cons file rest ih =>
    intro i
    by_cases h : (i : Int) > m
    · have h0 : (m + 1 - (i : Int)).toNat = 0 := by omega
      simp [sendLoop, h, h0]
    · obtain ⟨j, hj⟩ : ∃ j, (m + 1 - (i : Int)).toNat = j + 1 :=
        ⟨(m + 1 - (i : Int)).toNat - 1, by omega⟩
      have hnext : (m + 1 - ((i + 1 : Nat) : Int)).toNat = j := by push_cast; omega
      rw [sendLoop, if_neg h, hj, List.take_succ_cons, ih (i + 1), hnext]

theorem sentFiles_append (a b : List Event) : sentFiles (a ++ b) = sentFiles a ++ sentFiles b := by
  induction a with
  | nil => simp [sentFiles]
  | cons e rest ih => cases e <;> simp [sentFiles, ih]

theorem sentFiles_map_send (files : List FileInfo) :
    sentFiles (files.map Event.send) = files := by
  induction files with
  | nil => rfl
  | cons file rest ih => simp [sentFiles, ih]

/-- After a successful listing `FtpList` returns nil and sends the first
`maxFileCount + 1` eligible entries. -/
theorem FtpList_ok (sys : Sys σ) (conn : Option Client) (initConfig : InitConfig) (w w1 : σ)
    (fileList : List FileInfo)
    (hread : sys.readDir conn initConfig.FtpPath w = (Except.ok fileList, w1)) :
    (FtpList sys conn initConfig w).val = none ∧
    sentFiles (FtpList sys conn initConfig w).trace
      = (eligibleFiles initConfig fileList).take (maxFileCount + 1).toNat := by
  simp only [FtpList, FtpListFiles, hread, listLoop_eq, sendLoop_eq_take, sentFiles_append,
    sentFiles, List.nil_append, List.append_nil, true_and]
  show sentFiles (List.map Event.send _) = _
  rw [sentFiles_map_send]
  simp

/-- A listing of regular files is eligible as a whole when no name filter is configured. -/
theorem eligibleFiles_manyFiles (initConfig : InitConfig) (n : Nat)
    (hfilter : initConfig.FileNameFilter = []) :
    eligibleFiles initConfig (manyFiles n) = manyFiles n := by
  unfold eligibleFiles manyFiles
  rw [List.filter_eq_self]
  intro file hfile
  obtain ⟨i, _, rfl⟩ := List.mem_map.mp hfile
  simp [Eligible, regularFile, hfilter]

/-- For every listing, `FtpList` sends at most `maxFileCount + 1` entries. -/
theorem FtpList_sends_at_most (sys : Sys σ) (conn : Option Client) (initConfig : InitConfig)
    (w : σ) : ((sentFiles (FtpList sys conn initConfig w).trace).length : Int)
      ≤ maxFileCount + 1 := by
  rcases hread : sys.readDir conn initConfig.FtpPath w with ⟨res, w1⟩
  cases res with
  | error err => simp [FtpList, FtpListFiles, hread, sentFiles, maxFileCount]
  | ok fileList =>
    rw [(FtpList_ok sys conn initConfig w w1 fileList hread).2, List.length_take]
    unfold maxFileCount
    omega

/-- C4 at a failing input: a remote directory of 101 regular files and no name filter.
`FtpList` sends all 101 of them, one more than `maxFileCount = 100`. -/
theorem FtpList_sends_101_files :
    sentFiles (FtpList (listingSys (manyFiles 101)) (some 1) (sampleConfig 3 5 []) 0).trace
        = manyFiles 101 ∧
      ((sentFiles (FtpList (listingSys (manyFiles 101)) (some 1)
          (sampleConfig 3 5 []) 0).trace).length : Int) = 101 ∧
      ¬ ((sentFiles (FtpList (listingSys (manyFiles 101)) (some 1)
          (sampleConfig 3 5 []) 0).trace).length : Int) ≤ maxFileCount := by
  have hsent : sentFiles (FtpList (listingSys (manyFiles 101)) (some 1)
      (sampleConfig 3 5 []) 0).trace = manyFiles 101 := by
    rw [(FtpList_ok (listingSys (manyFiles 101)) (some 1) (sampleConfig 3 5 []) 0 0
      (manyFiles 101) rfl).2, eligibleFiles_manyFiles _ _ rfl]
    apply List.take_of_length_le
    simp [manyFiles, maxFileCount]
  rw [hsent]
  simp [manyFiles, maxFileCount]

/-! ### FtpDownloadClient -/

/-- An event that is not in the front part of a trace splits the back part. -/
theorem split_after (A B pre post : List Event) (e : Event) (hA : e ∉ A)
    (h : A ++ B = pre ++ e :: post) : ∃ pre1, pre = A ++ pre1 ∧ B = pre1 ++ e :: post := by
  rcases List.append_eq_append_iff.mp h with ⟨a, ha, hb⟩ | ⟨c, hc, hd⟩
  · exact ⟨a, ha, hb⟩
  · cases c with
    | nil => exact ⟨[], by simpa using hc.symm, by simpa using hd.symm⟩
    | cons x c =>
      simp only [List.cons_append, List.cons.injEq] at hd
      exact absurd (by rw [hc, hd.1]; simp) hA

theorem validateFile_trace_transfer (sys : Sys σ) (name : GoString) (size : Int) (w : σ) :
    ∀ e ∈ (validateFile sys name size w).trace, e.isTransferStep = true := by
  unfold validateFile
  split
  · simp [Event.isTransferStep]
  · split
    · simp [Event.isTransferStep]
    · split <;> simp [Event.isTransferStep]

/-- The trace of one iteration of a worker: transfer steps, then nothing more, or the
error return of `validateFile`, or its nil return followed by the remote delete and the
start of the commit. -/
theorem downloadFile_shape (sys : Sys σ) (conn : Option Client) (initConfig : InitConfig)
    (file : FileInfo) (w : σ) :
    ∃ Q : List Event, (∀ q ∈ Q, q.isTransferStep = true) ∧
      (((downloadFile sys conn initConfig file w).val ≠ none ∧
          (downloadFile sys conn initConfig file w).trace = Q) ∨
       (∃ err, (downloadFile sys conn initConfig file w).val = some err ∧
          (∃ Q0 w0, Q = Q0 ++
              (validateFile sys (initConfig.LocalTempPath ++ file.Name) file.Size w0).trace ∧
            (validateFile sys (initConfig.LocalTempPath ++ file.Name) file.Size w0).val
              = some err) ∧
          (downloadFile sys conn initConfig file w).trace = Q ++
            [Event.validated (initConfig.LocalTempPath ++ file.Name) file.Size (some err)]) ∨
       (∃ err, (downloadFile sys conn initConfig file w).val = none ∧
          (∃ Q0 w0, Q = Q0 ++
              (validateFile sys (initConfig.LocalTempPath ++ file.Name) file.Size w0).trace ∧
            (validateFile sys (initConfig.LocalTempPath ++ file.Name) file.Size w0).val
              = none) ∧
          (downloadFile sys conn initConfig file w).trace = Q ++
            [Event.validated (initConfig.LocalTempPath ++ file.Name) file.Size none,
             Event.delete (initConfig.FtpPath ++ file.Name) err,
             Event.goBackupAndMove (initConfig.LocalTempPath ++ file.Name)
               (initConfig.LocalPath ++ file.Name) (initConfig.BackupPath ++ file.Name)])) := by
  unfold downloadFile
  simp only
  split
  · exact ⟨_, by simp [Event.isTransferStep], Or.inl ⟨by simp, rfl⟩⟩
  · split
    · exact ⟨_, by simp [Event.isTransferStep], Or.inl ⟨by simp, rfl⟩⟩
    · rename_i w2 _
      have hv := validateFile_trace_transfer sys (initConfig.LocalTempPath ++ file.Name)
        file.Size (sys.fileClose (initConfig.LocalTempPath ++ file.Name) w2).2
      split
      · rename_i err hval
        refine ⟨_, ?_, Or.inr (Or.inl ⟨err, rfl, ⟨_, _, rfl, hval⟩, rfl⟩)⟩
        intro q hq
        simp only [List.mem_append, List.mem_cons] at hq
        rcases hq with hq | hq
        · rcases hq with rfl | rfl | rfl | hq <;> simp_all [Event.isTransferStep]
        · exact hv q hq
      · rename_i hval
        refine ⟨_, ?_, Or.inr (Or.inr ⟨_, rfl, ⟨_, _, rfl, hval⟩, rfl⟩)⟩
        intro q hq
        simp only [List.mem_append, List.mem_cons] at hq
        rcases hq with hq | hq
        · rcases hq with rfl | rfl | rfl | hq <;> simp_all [Event.isTransferStep]
        · exact hv q hq
/-- Where an event that is not a transfer step stands in the trace of a worker: it is a
return of `validateFile` for an entry of the queue, right after the calls of that
`validateFile`, and nothing follows when the return is an error; or the remote delete of an
entry, right after the nil return of its `validateFile`; or the start of the commit of an
entry, right after that nil return and the remote delete. -/
theorem FtpDownloadClient_event (sys : Sys σ) (conn : Option Client)
    (initConfig : InitConfig) :
    ∀ (queue : List FileInfo) (downloadCount : Int) (w : σ) (pre post : List Event)
      (e : Event),
      (FtpDownloadClient sys conn initConfig queue downloadCount w).trace = pre ++ e :: post →
      e.isTransferStep = false →
      ∃ file ∈ queue,
        (∃ res pre0 w0, e = Event.validated (initConfig.LocalTempPath ++ file.Name)
            file.Size res ∧
          pre = pre0 ++
            (validateFile sys (initConfig.LocalTempPath ++ file.Name) file.Size w0).trace ∧
          (validateFile sys (initConfig.LocalTempPath ++ file.Name) file.Size w0).val = res ∧
          (res ≠ none → post = [])) ∨
        (∃ err pre0, e = Event.delete (initConfig.FtpPath ++ file.Name) err ∧
          pre = pre0 ++
            [Event.validated (initConfig.LocalTempPath ++ file.Name) file.Size none]) ∨
        (∃ err pre0, e = Event.goBackupAndMove (initConfig.LocalTempPath ++ file.Name)
            (initConfig.LocalPath ++ file.Name) (initConfig.BackupPath ++ file.Name) ∧
          pre = pre0 ++
            [Event.validated (initConfig.LocalTempPath ++ file.Name) file.Size none,
             Event.delete (initConfig.FtpPath ++ file.Name) err]) := by
  intro queue
  induction queue with
  | nil =>
    intro c w pre post e h _
    simp [FtpDownloadClient] at h
  | cons file rest ih =>
    intro c w pre post e h hq
    obtain ⟨Q, hQ, hshape⟩ := downloadFile_shape sys conn initConfig file w
    have hnotin : e ∉ Event.receive file :: Q := by
      intro hmem
      rcases List.mem_cons.mp hmem with rfl | hmem
      · simp [Event.isTransferStep] at hq
      · rw [hQ e hmem] at hq; exact Bool.noConfusion hq
    unfold FtpDownloadClient at h
    simp only at h
    rcases hshape with ⟨hval, htr⟩ | ⟨err, hval, ⟨Q0, w0, hQ0, hv0⟩, htr⟩ |
      ⟨err, hval, ⟨Q0, w0, hQ0, hv0⟩, htr⟩
    · obtain ⟨err, hval⟩ := Option.ne_none_iff_exists'.mp hval
      rw [hval, htr] at h
      simp only at h
      have hmem : e ∈ Event.receive file :: Q := by rw [h]; simp
      exact absurd hmem hnotin
    · rw [hval, htr] at h
      simp only at h
      have h2 : (Event.receive file :: Q) ++
          [Event.validated (initConfig.LocalTempPath ++ file.Name) file.Size (some err)]
          = pre ++ e :: post := by simpa using h
      obtain ⟨pre1, hpre, hB⟩ := split_after _ _ _ _ _ hnotin h2
      refine ⟨file, List.mem_cons_self _ _, Or.inl ⟨some err, Event.receive file :: Q0, w0, ?_⟩⟩
      cases pre1 with
      | nil =>
        simp only [List.nil_append, List.cons.injEq] at hB
        refine ⟨hB.1.symm, ?_, hv0, fun _ => hB.2.symm⟩
        rw [hpre, hQ0]; simp
      | cons x pre1 =>
        simp only [List.cons_append, List.cons.injEq] at hB
        exact absurd hB.2 (by simp)
    · rw [hval, htr] at h
      simp only at h
      have h2 : (Event.receive file :: Q) ++
          (Event.validated (initConfig.LocalTempPath ++ file.Name) file.Size none ::
            Event.delete (initConfig.FtpPath ++ file.Name) err ::
            Event.goBackupAndMove (initConfig.LocalTempPath ++ file.Name)
              (initConfig.LocalPath ++ file.Name) (initConfig.BackupPath ++ file.Name) ::
            (FtpDownloadClient sys conn initConfig rest (c + 1)
              (downloadFile sys conn initConfig file w).world).trace)
          = pre ++ e :: post := by simpa using h
      obtain ⟨pre1, hpre, hB⟩ := split_after _ _ _ _ _ hnotin h2
      rcases List.cons_eq_append_iff.mp hB with ⟨hp, he⟩ | ⟨pre2, hp, hB2⟩
      · refine ⟨file, List.mem_cons_self _ _,
          Or.inl ⟨none, Event.receive file :: Q0, w0, ?_, ?_, hv0, fun hne => absurd rfl hne⟩⟩
        · simp only [List.cons.injEq] at he; exact he.1
        · rw [hpre, hp, hQ0]; simp
      rcases List.cons_eq_append_iff.mp hB2 with ⟨hp2, he⟩ | ⟨pre3, hp2, hB3⟩
      · refine ⟨file, List.mem_cons_self _ _,
          Or.inr (Or.inl ⟨err, Event.receive file :: Q, ?_, ?_⟩)⟩
        · simp only [List.cons.injEq] at he; exact he.1
        · rw [hpre, hp, hp2]
      rcases List.cons_eq_append_iff.mp hB3 with ⟨hp3, he⟩ | ⟨pre4, hp3, hB4⟩
      · refine ⟨file, List.mem_cons_self _ _,
          Or.inr (Or.inr ⟨err, Event.receive file :: Q, ?_, ?_⟩)⟩
        · simp only [List.cons.injEq] at he; exact he.1
        · rw [hpre, hp, hp2, hp3]
      obtain ⟨file2, hmem2, hcases⟩ := ih _ _ _ _ _ hB4 hq
      obtain ⟨P, hpre4⟩ : ∃ P, pre = P ++ pre4 :=
        ⟨Event.receive file :: Q ++
          [Event.validated (initConfig.LocalTempPath ++ file.Name) file.Size none,
           Event.delete (initConfig.FtpPath ++ file.Name) err,
           Event.goBackupAndMove (initConfig.LocalTempPath ++ file.Name)
             (initConfig.LocalPath ++ file.Name) (initConfig.BackupPath ++ file.Name)],
          by rw [hpre, hp, hp2, hp3]; simp⟩
      refine ⟨file2, List.mem_cons_of_mem _ hmem2, ?_⟩
      rcases hcases with ⟨res, pre0, w1, he, hp0, hv, hpost⟩ | ⟨err2, pre0, he, hp0⟩ |
        ⟨err2, pre0, he, hp0⟩
      · exact Or.inl ⟨res, P ++ pre0, w1, he, by rw [hpre4, hp0, List.append_assoc], hv, hpost⟩
      · exact Or.inr (Or.inl ⟨err2, P ++ pre0, he, by rw [hpre4, hp0, List.append_assoc]⟩)
      · exact Or.inr (Or.inr ⟨err2, P ++ pre0, he, by rw [hpre4, hp0, List.append_assoc]⟩)

/-- C1: in every run of a worker, whatever the outcomes of its calls: a remote `Delete` is
made only for an entry of the queue and directly after `validateFile` returned nil for the
staged copy of that entry and its reported size; the commit (`backupAndMove`) of an entry is
started only directly after that nil return and the remote delete; a `validated` event is
the value `validateFile` returned after its own calls; after an error return of
`validateFile` the worker makes no further call at all (no remote delete, no commit); and
the worker never removes a file. -/
theorem FtpDownloadClient_validates_before_delete (sys : Sys σ) (conn : Option Client)
    (initConfig : InitConfig) (queue : List FileInfo) (downloadCount : Int) (w : σ) :
    (∀ pre post remote err,
      (FtpDownloadClient sys conn initConfig queue downloadCount w).trace
          = pre ++ Event.delete remote err :: post →
        ∃ file ∈ queue, ∃ pre0, remote = initConfig.FtpPath ++ file.Name ∧
          pre = pre0 ++
            [Event.validated (initConfig.LocalTempPath ++ file.Name) file.Size none]) ∧
    (∀ pre post tempFile destFile backupFile,
      (FtpDownloadClient sys conn initConfig queue downloadCount w).trace
          = pre ++ Event.goBackupAndMove tempFile destFile backupFile :: post →
        ∃ file ∈ queue, ∃ pre0 err,
          tempFile = initConfig.LocalTempPath ++ file.Name ∧
          destFile = initConfig.LocalPath ++ file.Name ∧
          backupFile = initConfig.BackupPath ++ file.Name ∧
          pre = pre0 ++
            [Event.validated (initConfig.LocalTempPath ++ file.Name) file.Size none,
             Event.delete (initConfig.FtpPath ++ file.Name) err]) ∧
    (∀ pre post name size res,
      (FtpDownloadClient sys conn initConfig queue downloadCount w).trace
          = pre ++ Event.validated name size res :: post →
        ∃ pre0 w0, pre = pre0 ++ (validateFile sys name size w0).trace ∧
          (validateFile sys name size w0).val = res) ∧
    (∀ pre post name size err,
      (FtpDownloadClient sys conn initConfig queue downloadCount w).trace
          = pre ++ Event.validated name size (some err) :: post →
        post = []) ∧
    (∀ name err,
      Event.osRemove name err ∉
        (FtpDownloadClient sys conn initConfig queue downloadCount w).trace) := by
  refine ⟨?_, ?_, ?_, ?_, ?_⟩
  · intro pre post remote err h
    obtain ⟨file, hmem, hcases⟩ :=
      FtpDownloadClient_event sys conn initConfig queue downloadCount w pre post _ h rfl
    rcases hcases with ⟨res, pre0, w0, he, _⟩ | ⟨err2, pre0, he, hp⟩ | ⟨err2, pre0, he, _⟩
    · exact Event.noConfusion he
    · simp only [Event.delete.injEq] at he
      exact ⟨file, hmem, pre0, he.1, hp⟩
    · exact Event.noConfusion he
  · intro pre post tempFile destFile backupFile h
    obtain ⟨file, hmem, hcases⟩ :=
      FtpDownloadClient_event sys conn initConfig queue downloadCount w pre post _ h rfl
    rcases hcases with ⟨res, pre0, w0, he, _⟩ | ⟨err2, pre0, he, _⟩ | ⟨err2, pre0, he, hp⟩
    · exact Event.noConfusion he
    · exact Event.noConfusion he
    · simp only [Event.goBackupAndMove.injEq] at he
      exact ⟨file, hmem, pre0, err2, he.1, he.2.1, he.2.2, hp⟩
  · intro pre post name size res h
    obtain ⟨file, _, hcases⟩ :=
      FtpDownloadClient_event sys conn initConfig queue downloadCount w pre post _ h rfl
    rcases hcases with ⟨res2, pre0, w0, he, hp, hv, _⟩ | ⟨err2, pre0, he, _⟩ |
      ⟨err2, pre0, he, _⟩
    · simp only [Event.validated.injEq] at he
      obtain ⟨hn, hs, hr⟩ := he
      subst hn hs hr
      exact ⟨pre0, w0, hp, hv⟩
    · exact Event.noConfusion he
    · exact Event.noConfusion he
  · intro pre post name size err h
    obtain ⟨file, _, hcases⟩ :=
      FtpDownloadClient_event sys conn initConfig queue downloadCount w pre post _ h rfl
    rcases hcases with ⟨res2, pre0, w0, he, _, _, hpost⟩ | ⟨err2, pre0, he, _⟩ |
      ⟨err2, pre0, he, _⟩
    · simp only [Event.validated.injEq] at he
      exact hpost (by rw [← he.2.2]; simp)
    · exact Event.noConfusion he
    · exact Event.noConfusion he
  · intro name err hmem
    obtain ⟨pre, post, h⟩ := List.append_of_mem hmem
    obtain ⟨file, _, hcases⟩ :=
      FtpDownloadClient_event sys conn initConfig queue downloadCount w pre post _ h rfl
    rcases hcases with ⟨res2, pre0, w0, he, _⟩ | ⟨err2, pre0, he, _⟩ | ⟨err2, pre0, he, _⟩ <;>
      exact Event.noConfusion he

/-- The failure scenario of the validator: the remote entry reports size 1000 and the staged
file has size 990. The worker returns `CorruptFile` right after `validateFile`, without a
remote delete and without starting the commit. -/
theorem FtpDownloadClient_corrupt_file :
    (FtpDownloadClient shortSys (some 1) (sampleConfig 3 5 [])
        [regularFile (utf8 "a.csv") 1000] 0 0).val
      = ⟨some "CorruptFile", 0, []⟩ ∧
    (FtpDownloadClient shortSys (some 1) (sampleConfig 3 5 [])
        [regularFile (utf8 "a.csv") 1000] 0 0).trace
      = [Event.receive (regularFile (utf8 "a.csv") 1000),
         Event.osCreate (utf8 "/tmp/a.csv") none,
         Event.retrieve (utf8 "/out/a.csv") (utf8 "/tmp/a.csv") none,
         Event.fileClose (utf8 "/tmp/a.csv") none,
         Event.osOpen (utf8 "/tmp/a.csv") none,
         Event.fileStat (utf8 "/tmp/a.csv") (Except.ok 990),
         Event.fileClose (utf8 "/tmp/a.csv") none,
         Event.validated (utf8 "/tmp/a.csv") 1000 (some "CorruptFile")] := by
  constructor <;> decide

/-- An iteration that ends in `return err` ends the worker: the entries after it stay in the
queue. -/
theorem FtpDownloadClient_returns_on_error (sys : Sys σ) (conn : Option Client)
    (initConfig : InitConfig) (file : FileInfo) (rest : List FileInfo) (downloadCount : Int)
    (w : σ) (err : Error) (h : (downloadFile sys conn initConfig file w).val = some err) :
    (FtpDownloadClient sys conn initConfig (file :: rest) downloadCount w).val
        = ⟨some err, downloadCount, rest⟩ ∧
      (FtpDownloadClient sys conn initConfig (file :: rest) downloadCount w).trace
        = Event.receive file :: (downloadFile sys conn initConfig file w).trace := by
  simp [FtpDownloadClient, h]

/-- C5 at a failing input: a worker whose queue holds `a.csv` and `b.csv`, in a world where
the staged file of `a.csv` cannot be created. The worker returns the error after the failed
`os.Create`: it makes no call for `b.csv`, which it leaves in the queue. -/
theorem FtpDownloadClient_returns_at_first_error :
    (FtpDownloadClient lockedSys (some 1) (sampleConfig 3 5 [])
        [regularFile (utf8 "a.csv") 1000, regularFile (utf8 "b.csv") 1000] 0 0).val
      = ⟨some "permission denied", 0, [regularFile (utf8 "b.csv") 1000]⟩ ∧
    (FtpDownloadClient lockedSys (some 1) (sampleConfig 3 5 [])
        [regularFile (utf8 "a.csv") 1000, regularFile (utf8 "b.csv") 1000] 0 0).trace
      = [Event.receive (regularFile (utf8 "a.csv") 1000),
         Event.osCreate (utf8 "/tmp/a.csv") (some "permission denied")] := by
  constructor <;> decide

/-! ### The commit stage -/

/-- The copy returns nil exactly when the source opens, the target is created and `io.Copy`
succeeds; the results of the `Close` calls play no part. -/
theorem copyToDest_nil_iff (sys : Sys σ) (src dst : GoString) (w : σ) :
    (copyToDest sys src dst w).val = none ↔
      (sys.osOpen src (sys.sleep (5 * Second) w)).1 = none ∧
      (sys.osCreate dst (sys.osOpen src (sys.sleep (5 * Second) w)).2).1 = none ∧
      (sys.ioCopy dst src
        (sys.osCreate dst (sys.osOpen src (sys.sleep (5 * Second) w)).2).2).1 = none := by
  unfold copyToDest
  simp only
  rcases h1 : sys.osOpen src (sys.sleep (5 * Second) w) with ⟨e1, w1⟩
  cases e1 with
  | some err => simp
  | none =>
    simp only [true_and]
    rcases h2 : sys.osCreate dst w1 with ⟨e2, w2⟩
    cases e2 with
    | some err => simp
    | none =>
      simp only [true_and]
      rcases h3 : sys.ioCopy dst src w2 with ⟨e3, w3⟩
      cases e3 with
      | some err => simp
      | none => simp

/-- The copy itself never removes a file. -/
theorem copyToDest_no_remove (sys : Sys σ) (src dst : GoString) (w : σ) (name : GoString)
    (err : Option Error) : Event.osRemove name err ∉ (copyToDest sys src dst w).trace := by
  unfold copyToDest
  simp only
  split
  · simp
  · split
    · simp
    · split <;> simp

/-- C9 (amended): in every run of the commit stage, whatever the outcomes of its calls:
`backupAndMove` makes the copy of `tempFile` to `destFile`, removes no file, and starts
`moveToDest(tempFile, backupFile)` whether or not that copy failed; `moveToDest` removes
`tempFile`, and no other file, exactly when its copy of `tempFile` to `backupFile` returns
nil. A failed copy to `destFile` therefore does not itself delete `tempFile`, and does not
keep it either. -/
theorem commit_removes_iff_backup_copy_nil (sys : Sys σ)
    (tempFile destFile backupFile : GoString) (w w2 : σ) :
    (backupAndMove sys tempFile destFile backupFile w).trace
        = (copyToDest sys tempFile destFile w).trace ++
          [Event.goMoveToDest tempFile backupFile] ∧
    (∀ name err,
      Event.osRemove name err ∉ (backupAndMove sys tempFile destFile backupFile w).trace) ∧
    ((∃ err, Event.osRemove tempFile err ∈ (moveToDest sys tempFile backupFile w2).trace) ↔
      (copyToDest sys tempFile backupFile w2).val = none) ∧
    (∀ name err, Event.osRemove name err ∈ (moveToDest sys tempFile backupFile w2).trace →
      name = tempFile) := by
  refine ⟨rfl, ?_, ?_, ?_⟩
  · intro name err hmem
    simp only [backupAndMove, List.mem_append, List.mem_singleton] at hmem
    rcases hmem with hmem | hmem
    · exact copyToDest_no_remove sys tempFile destFile w name err hmem
    · exact Event.noConfusion hmem
  · have hno := copyToDest_no_remove sys tempFile backupFile w2
    unfold moveToDest
    simp only
    cases hval : (copyToDest sys tempFile backupFile w2).val with
    | some e =>
      simp only [reduceCtorEq, iff_false, not_exists]
      intro err
      exact hno tempFile err
    | none =>
      simp only [iff_true]
      exact ⟨(sys.osRemove tempFile
        (sys.sleep (5 * Second) (copyToDest sys tempFile backupFile w2).world)).1, by simp⟩
  · intro name err hmem
    have hno := copyToDest_no_remove sys tempFile backupFile w2 name err
    unfold moveToDest at hmem
    simp only at hmem
    cases hval : (copyToDest sys tempFile backupFile w2).val with
    | some e =>
      rw [hval] at hmem
      exact absurd hmem hno
    | none =>
      rw [hval] at hmem
      simp only [List.mem_append, List.mem_cons, Event.osRemove.injEq, reduceCtorEq,
        List.mem_nil_iff, or_false, false_or] at hmem
      rcases hmem with hmem | hmem
      · exact absurd hmem hno
      · exact hmem.1

/-- C9 as stated fails: in a world where `/data/a.csv` cannot be created, the copy of the
staged file to the destination fails, and the commit stage still removes the staged file,
after its copy to the backup path. -/
theorem commitStage_removes_after_failed_dest_copy :
    (copyToDest noDestSys (utf8 "/tmp/a.csv") (utf8 "/data/a.csv") 0).val
        = some "permission denied" ∧
      Event.osRemove (utf8 "/tmp/a.csv") none ∈
        (commitStage noDestSys (utf8 "/tmp/a.csv") (utf8 "/data/a.csv")
          (utf8 "/backup/a.csv") 0).trace := by
  constructor <;> decide

/-- C2 at a failing input: a world where closing the backup file fails. `copyToDest` returns
nil all the same, and `moveToDest` removes the staged file after the failed close. -/
theorem moveToDest_removes_after_failed_close :
    (copyToDest badCloseSys (utf8 "/tmp/a.csv") (utf8 "/backup/a.csv") 0).val = none ∧
    (moveToDest badCloseSys (utf8 "/tmp/a.csv") (utf8 "/backup/a.csv") 0).trace
      = [Event.sleep 5000000000,
         Event.osOpen (utf8 "/tmp/a.csv") none,
         Event.osCreate (utf8 "/backup/a.csv") none,
         Event.ioCopy (utf8 "/backup/a.csv") (utf8 "/tmp/a.csv") none,
         Event.fileClose (utf8 "/backup/a.csv") (some "input/output error"),
         Event.fileClose (utf8 "/tmp/a.csv") none,
         Event.fileClose (utf8 "/tmp/a.csv") none,
         Event.sleep 5000000000,
         Event.osRemove (utf8 "/tmp/a.csv") none] := by
  constructor <;> decide

/-! ### StartFtpDownload -/

/-- Once the log file is open and the connection is made, `StartFtpDownload` returns nil
whenever it returns: no value of a goroutine reaches its return statement. -/
theorem StartFtpDownload_nil_after_connect (sys : Sys σ) (initConfig : InitConfig)
    (sched : List Nat) (w w1 : σ) (c : Run σ (Option Client × Option Error))
    (r : Run σ (Option Error))
    (hlog : sys.osOpenFile
      (initConfig.LogFile ++ utf8 "_" ++ (sys.today w).1 ++ utf8 ".txt") (sys.today w).2
        = (none, w1))
    (hconn : FtpsConnect sys initConfig w1 = some c) (hok : c.val.2 = none)
    (hrun : StartFtpDownload sys initConfig sched w = some r) : r.val = none := by
  unfold StartFtpDownload at hrun
  simp only [hlog, hconn, hok] at hrun
  split at hrun
  · exact Option.noConfusion hrun
  · simp only [Option.some.injEq] at hrun
    rw [← hrun]

/-- When `ReadDir` fails, `FtpList` returns its error, sends nothing and closes the channel. -/
theorem FtpList_listing_failure (sys : Sys σ) (conn : Option Client) (initConfig : InitConfig)
    (w w1 : σ) (err : Error)
    (hread : sys.readDir conn initConfig.FtpPath w = (Except.error err, w1)) :
    (FtpList sys conn initConfig w).val = some err ∧
    (FtpList sys conn initConfig w).trace
      = [Event.readDir initConfig.FtpPath (some err), Event.closeChan] := by
  simp [FtpList, FtpListFiles, hread]

/-- In the pool, the lister is never blocked while the channel has room for all the files it
still has to send: scheduled alone for one step per file and one more, with no worker
receiving, it sends them all in order and closes the channel. -/
theorem Pool.lister_sends_all (sys : Sys σ) (conn : Option Client) (initConfig : InitConfig) :
    ∀ (files : List FileInfo) (p : Pool σ),
      p.tasks.get? 0 = some (Task.lister (some files)) →
      p.fileChan.length + files.length ≤ maxFiles →
      ((Pool.step sys conn initConfig 0)^[files.length + 1] p).tasks.get? 0
          = some Task.done ∧
        ((Pool.step sys conn initConfig 0)^[files.length + 1] p).closed = true ∧
        ((Pool.step sys conn initConfig 0)^[files.length + 1] p).fileChan
          = p.fileChan ++ files ∧
        ((Pool.step sys conn initConfig 0)^[files.length + 1] p).trace
          = p.trace ++ files.map Event.send ++ [Event.closeChan] := by
  intro files
  induction files with
  | nil =>
    intro p htask _
    cases htasks : p.tasks with
    | nil => simp [htasks] at htask
    | cons t ts =>
      simp [htasks] at htask
      subst htask
      simp [Pool.step, Pool.update, htasks]
  | cons file rest ih =>
    intro p htask hroom
    cases htasks : p.tasks with
    | nil => simp [htasks] at htask
    | cons t ts =>
      simp [htasks] at htask
      subst htask
      have hlt : p.fileChan.length < maxFiles := by simp at hroom; omega
      have hstep : Pool.step sys conn initConfig 0 p
          = { p with tasks := Task.lister (some rest) :: ts,
                     fileChan := p.fileChan ++ [file],
                     trace := p.trace ++ [Event.send file] } := by
        simp [Pool.step, Pool.update, htasks, hlt]
      rw [List.length_cons, Function.iterate_succ_apply, hstep]
      have hq := ih (Pool.mk (Task.lister (some rest) :: ts) (p.fileChan ++ [file]) p.closed
        p.wg (p.trace ++ [Event.send file]) p.world) (by simp)
        (by simp at hroom ⊢; omega)
      simpa using hq

/-- C10 at a failing input: the log file opens, the connection succeeds and the remote
directory cannot be listed. `FtpList` returns the error of `ReadDir`, having sent nothing
and closed the channel; the workers find the channel closed and return; and
`StartFtpDownload` returns nil. -/
theorem StartFtpDownload_returns_nil_on_listing_failure :
    (FtpList unlistableSys (some 1) (sampleConfig 3 5 []) 1).val
        = some "550 no such directory" ∧
    (FtpList unlistableSys (some 1) (sampleConfig 3 5 []) 1).trace
        = [Event.readDir (utf8 "/out/") (some "550 no such directory"), Event.closeChan] ∧
    ∃ r, StartFtpDownload unlistableSys (sampleConfig 3 5 []) [0, 1, 2, 3] 0 = some r ∧
      r.val = none ∧
      r.trace = [Event.osOpenFile (utf8 "ftps_20240131.txt") none,
        Event.dial (utf8 "ftp.example.org") (some 1) none,
        Event.readDir (utf8 "/out/") (some "550 no such directory"), Event.closeChan,
        Event.connClose, Event.fileClose (utf8 "ftps_20240131.txt") none] := by
  refine ⟨by decide, by decide, _, rfl, by decide, by decide⟩

/-- Four remote files in a world where no staged file can be created: each of the three
workers returns after its first entry, the fourth entry is never received, and
`StartFtpDownload` returns nil. -/
theorem StartFtpDownload_leaves_entry_when_workers_fail :
    ∃ r, StartFtpDownload (fullDiskSys (manyFiles 4)) (sampleConfig 3 5 [])
        [0, 0, 0, 0, 0, 0, 1, 2, 3] 0 = some r ∧
      r.val = none ∧ receivedFiles r.trace = manyFiles 3 ∧
      sentFiles r.trace = manyFiles 4 := by
  refine ⟨_, rfl, by decide, by decide, by decide⟩

/-! ### FtpList among the goroutines -/

theorem sentFiles_validateFile (sys : Sys σ) (name : GoString) (size : Int) (w : σ) :
    sentFiles (validateFile sys name size w).trace = [] := by
  unfold validateFile
  split
  · simp [sentFiles]
  · split
    · simp [sentFiles]
    · split <;> simp [sentFiles]

theorem sentFiles_downloadFile (sys : Sys σ) (conn : Option Client) (initConfig : InitConfig)
    (file : FileInfo) (w : σ) : sentFiles (downloadFile sys conn initConfig file w).trace = [] := by
  unfold downloadFile
  simp only
  split
  · simp [sentFiles]
  · split
    · simp [sentFiles]
    · split <;> simp [sentFiles, sentFiles_append, sentFiles_validateFile]

theorem sentFiles_copyToDest (sys : Sys σ) (src dst : GoString) (w : σ) :
    sentFiles (copyToDest sys src dst w).trace = [] := by
  unfold copyToDest
  simp only
  split
  · simp [sentFiles]
  · split
    · simp [sentFiles]
    · split <;> simp [sentFiles]

theorem sentFiles_moveToDest (sys : Sys σ) (src dst : GoString) (w : σ) :
    sentFiles (moveToDest sys src dst w).trace = [] := by
  unfold moveToDest
  simp only
  split <;> simp [sentFiles, sentFiles_append, sentFiles_copyToDest]

theorem sentFiles_backupAndMove (sys : Sys σ) (tempFile destFile backupFile : GoString)
    (w : σ) : sentFiles (backupAndMove sys tempFile destFile backupFile w).trace = [] := by
  simp [backupAndMove, sentFiles, sentFiles_append, sentFiles_copyToDest]

/-- A step of a goroutine other than `FtpList` leaves `FtpList` where it is, sends nothing,
does not fill the channel and does not reopen it. -/
theorem Pool.step_other (sys : Sys σ) (conn : Option Client) (initConfig : InitConfig)
    (j : Nat) (p : Pool σ) (t0 : Task) (hone : p.oneLister)
    (h0 : p.tasks.get? 0 = some t0) :
    (Pool.step sys conn initConfig (j + 1) p).tasks.get? 0 = some t0 ∧
    (Pool.step sys conn initConfig (j + 1) p).oneLister ∧
    sentFiles (Pool.step sys conn initConfig (j + 1) p).trace = sentFiles p.trace ∧
    (Pool.step sys conn initConfig (j + 1) p).fileChan.length ≤ p.fileChan.length ∧
    (p.closed = true → (Pool.step sys conn initConfig (j + 1) p).closed = true) := by
  obtain ⟨rest, hl⟩ : ∃ rest, p.tasks = t0 :: rest := by
    cases hl : p.tasks with
    | nil => simp [hl] at h0
    | cons a rest => simp [hl] at h0; exact ⟨rest, by rw [h0]⟩
  have hone2 : ∀ t ∈ rest, ∀ todo, t ≠ Task.lister todo := by
    intro t ht; exact hone t (by simp [hl, ht])
  -- what an update of goroutine `j + 1` keeps
  have hupd : ∀ (t : Task) (sp : List Task) (wg : Int) (ev : List Event) (w : σ)
      (q : Pool σ), q.tasks = (p.update (j + 1) t sp wg ev w).tasks →
      (∀ todo, t ≠ Task.lister todo) → (∀ s ∈ sp, ∀ todo, s ≠ Task.lister todo) →
      q.tasks.get? 0 = some t0 ∧ q.oneLister := by
    intro t sp wg ev w q hq ht hsp
    have hq2 : q.tasks = t0 :: (rest.set j t ++ sp) := by
      rw [hq]; simp [Pool.update, hl]
    refine ⟨by simp [hq2], ?_⟩
    intro s hs
    simp only [hq2, List.tail_cons, List.mem_append] at hs
    rcases hs with hs | hs
    · rcases List.mem_or_eq_of_mem_set hs with hs | hs
      · exact hone2 s hs
      · rw [hs]; exact ht
    · exact hsp s hs
  unfold Pool.step
  cases ht : p.tasks.get? (j + 1) with
  | none => exact ⟨h0, hone, rfl, le_refl _, id⟩
  | some t =>
    have hmem : t ∈ rest := by
      simp only [hl, List.get?_cons_succ] at ht
      exact List.get?_mem ht
    cases t with
    | done => exact ⟨h0, hone, rfl, le_refl _, id⟩
    | lister todo => exact absurd rfl (hone2 _ hmem todo)
    | worker clientNum downloadCount =>
      simp only
      cases hchan : p.fileChan with
      | nil =>
        simp only
        by_cases hclosed : p.closed = true
        · simp only [hclosed, if_true]
          obtain ⟨h1, h2⟩ := hupd Task.done [] (p.wg - 1) [] p.world _ rfl
            (by intro todo h; exact Task.noConfusion h) (by simp)
          exact ⟨h1, h2, by simp [Pool.update], by simp [Pool.update, hchan],
            fun _ => by simp [Pool.update, hclosed]⟩
        · simp only [hclosed]
          exact ⟨h0, hone, rfl, by simp [hchan], fun h => absurd h (by simp)⟩
      | cons file queue =>
        simp only
        split
        · obtain ⟨h1, h2⟩ := hupd Task.done [] (p.wg - 1)
            (Event.receive file :: (downloadFile sys conn initConfig file p.world).trace)
            (downloadFile sys conn initConfig file p.world).world _ rfl
            (by intro todo h; exact Task.noConfusion h) (by simp)
          exact ⟨h1, h2, by simp [Pool.update, sentFiles_append, sentFiles,
            sentFiles_downloadFile], by simp [Pool.update], fun h => by simpa [Pool.update] using h⟩
        · obtain ⟨h1, h2⟩ := hupd (Task.worker clientNum (downloadCount + 1))
            [Task.commit (initConfig.LocalTempPath ++ file.Name)
              (initConfig.LocalPath ++ file.Name) (initConfig.BackupPath ++ file.Name)]
            (p.wg + 1)
            (Event.receive file :: (downloadFile sys conn initConfig file p.world).trace)
            (downloadFile sys conn initConfig file p.world).world _ rfl
            (by intro todo h; exact Task.noConfusion h)
            (by intro s hs todo h; simp at hs; rw [hs] at h; exact Task.noConfusion h)
          exact ⟨h1, h2, by simp [Pool.update, sentFiles_append, sentFiles,
            sentFiles_downloadFile], by simp [Pool.update], fun h => by simpa [Pool.update] using h⟩
    | commit tempFile destFile backupFile =>
      simp only
      obtain ⟨h1, h2⟩ := hupd Task.done [Task.move tempFile backupFile] (p.wg + 1 - 1 + 1 - 1)
        (backupAndMove sys tempFile destFile backupFile p.world).trace
        (backupAndMove sys tempFile destFile backupFile p.world).world _ rfl
        (by intro todo h; exact Task.noConfusion h)
        (by intro s hs todo h; simp at hs; rw [hs] at h; exact Task.noConfusion h)
      exact ⟨h1, h2, by simp [Pool.update, sentFiles_append, sentFiles_backupAndMove],
        by simp [Pool.update], fun h => by simpa [Pool.update] using h⟩
    | move src dst =>
      simp only
      obtain ⟨h1, h2⟩ := hupd Task.done [] (p.wg + 1 - 1 - 1)
        (moveToDest sys src dst p.world).trace (moveToDest sys src dst p.world).world _ rfl
        (by intro todo h; exact Task.noConfusion h) (by simp)
      exact ⟨h1, h2, by simp [Pool.update, sentFiles_append, sentFiles_moveToDest],
        by simp [Pool.update], fun h => by simpa [Pool.update] using h⟩

theorem sentFiles_FtpListFiles (sys : Sys σ) (conn : Option Client) (initConfig : InitConfig)
    (w : σ) : sentFiles (FtpListFiles sys conn initConfig w).trace = [] := by
  unfold FtpListFiles
  split <;> simp [sentFiles]

/-- One step of any goroutine keeps `FtpList` on its way: its own step brings it one step
nearer to its return and is never blocked, a step of another goroutine changes nothing
for it. -/
theorem Pool.listerAt_step (sys : Sys σ) (conn : Option Client) (initConfig : InitConfig)
    (p0 : Pool σ) (workers : List Task) (files : List FileInfo)
    (htasks : p0.tasks = Task.lister none :: workers)
    (hworkers : ∀ t ∈ workers, ∃ clientNum downloadCount, t = Task.worker clientNum downloadCount)
    (hchan : p0.fileChan = []) (hopen : p0.closed = false)
    (hlist : (FtpListFiles sys conn initConfig p0.world).val = Except.ok files)
    (hcap : files.length ≤ maxFiles) (i : Nat) (p : Pool σ) (todo : Nat)
    (h : Pool.listerAt p0 files p todo) :
    Pool.listerAt p0 files (Pool.step sys conn initConfig i p)
      (if i = 0 then todo - 1 else todo) := by
  have hw : ∀ t ∈ workers, ∀ td, t ≠ Task.lister td := by
    intro t ht td heq
    obtain ⟨c, d, hcd⟩ := hworkers t ht
    rw [hcd] at heq
    exact Task.noConfusion heq
  rcases h with ⟨hp, htodo⟩ | ⟨hone, rest, h0, hsent, hroom, htodo⟩ |
    ⟨hone, h0, hsent, hclosed, htodo⟩
  · subst hp
    cases i with
    | zero =>
      refine Or.inr (Or.inl ⟨?_, files, ?_, ?_, ?_, ?_⟩)
      · intro t ht
        simp [Pool.step, htasks, hlist, Pool.update] at ht
        exact hw t ht
      · simp [Pool.step, htasks, hlist, Pool.update]
      · simp [Pool.step, htasks, hlist, Pool.update, sentFiles_append, sentFiles_FtpListFiles]
      · simp [Pool.step, htasks, hlist, Pool.update, hchan]
        exact hcap
      · simp [htodo]
    | succ j =>
      refine Or.inl ⟨?_, by simp [htodo]⟩
      unfold Pool.step
      cases ht : p.tasks.get? (j + 1) with
      | none => rfl
      | some t =>
        have hmem : t ∈ workers := by
          simp only [htasks, List.get?_cons_succ] at ht
          exact List.get?_mem ht
        obtain ⟨c, d, hcd⟩ := hworkers t hmem
        subst hcd
        simp [hchan, hopen]
  · cases i with
    | zero =>
      cases rest with
      | nil =>
        obtain ⟨l, hl⟩ : ∃ l, p.tasks = Task.lister (some []) :: l := by
          cases hl : p.tasks with
          | nil => simp [hl] at h0
          | cons a l => simp [hl] at h0; exact ⟨l, by rw [h0]⟩
        refine Or.inr (Or.inr ⟨?_, ?_, ?_, ?_, by simp [htodo]⟩)
        · intro t ht
          simp [Pool.step, hl, Pool.update] at ht
          exact hone t (by simp [hl, ht])
        · simp [Pool.step, hl, Pool.update]
        · rw [← hsent]
          simp [Pool.step, hl, Pool.update, sentFiles_append, sentFiles]
        · simp [Pool.step, hl, Pool.update]
      | cons file rest =>
        have hlt : p.fileChan.length < maxFiles := by
          simp only [List.length_cons] at hroom; omega
        obtain ⟨l, hl⟩ : ∃ l, p.tasks = Task.lister (some (file :: rest)) :: l := by
          cases hl : p.tasks with
          | nil => simp [hl] at h0
          | cons a l => simp [hl] at h0; exact ⟨l, by rw [h0]⟩
        refine Or.inr (Or.inl ⟨?_, rest, ?_, ?_, ?_, ?_⟩)
        · intro t ht
          simp [Pool.step, hl, Pool.update, hlt] at ht
          exact hone t (by simp [hl, ht])
        · simp [Pool.step, hl, Pool.update, hlt]
        · rw [← hsent]
          simp [Pool.step, hl, Pool.update, hlt, sentFiles_append, sentFiles]
        · simp only [List.length_cons] at hroom
          simp [Pool.step, hl, Pool.update, hlt]
          omega
        · simp [htodo]
    | succ j =>
      obtain ⟨h1, h2, h3, h4, _⟩ := Pool.step_other sys conn initConfig j p _ hone h0
      refine Or.inr (Or.inl ⟨h2, rest, h1, by rw [h3]; exact hsent, by omega, by simp [htodo]⟩)
  · cases i with
    | zero =>
      refine Or.inr (Or.inr ?_)
      have hstep : Pool.step sys conn initConfig 0 p = p := by
        unfold Pool.step
        rw [h0]
      rw [hstep]
      exact ⟨hone, h0, hsent, hclosed, by simp [htodo]⟩
    | succ j =>
      obtain ⟨h1, h2, h3, _, h5⟩ := Pool.step_other sys conn initConfig j p _ hone h0
      exact Or.inr (Or.inr ⟨h2, h1, by rw [h3]; exact hsent, h5 hclosed, by simp [htodo]⟩)

/-- One step of any goroutine keeps the files sent in line with the files `FtpList` has to
send, whether or not the channel has room. -/
theorem Pool.listerSafe_step (sys : Sys σ) (conn : Option Client) (initConfig : InitConfig)
    (p0 : Pool σ) (workers : List Task) (files : List FileInfo)
    (htasks : p0.tasks = Task.lister none :: workers)
    (hworkers : ∀ t ∈ workers, ∃ clientNum downloadCount, t = Task.worker clientNum downloadCount)
    (hchan : p0.fileChan = []) (hopen : p0.closed = false)
    (hlist : (FtpListFiles sys conn initConfig p0.world).val = Except.ok files)
    (i : Nat) (p : Pool σ) (h : Pool.listerSafe p0 files p) :
    Pool.listerSafe p0 files (Pool.step sys conn initConfig i p) := by
  have hw : ∀ t ∈ workers, ∀ td, t ≠ Task.lister td := by
    intro t ht td heq
    obtain ⟨c, d, hcd⟩ := hworkers t ht
    rw [hcd] at heq
    exact Task.noConfusion heq
  rcases h with hp | ⟨hone, rest, h0, hsent⟩ | ⟨hone, h0, hsent, hclosed⟩
  · subst hp
    cases i with
    | zero =>
      refine Or.inr (Or.inl ⟨?_, files, ?_, ?_⟩)
      · intro t ht
        simp [Pool.step, htasks, hlist, Pool.update] at ht
        exact hw t ht
      · simp [Pool.step, htasks, hlist, Pool.update]
      · simp [Pool.step, htasks, hlist, Pool.update, sentFiles_append, sentFiles_FtpListFiles]
    | succ j =>
      refine Or.inl ?_
      unfold Pool.step
      cases ht : p.tasks.get? (j + 1) with
      | none => rfl
      | some t =>
        have hmem : t ∈ workers := by
          simp only [htasks, List.get?_cons_succ] at ht
          exact List.get?_mem ht
        obtain ⟨c, d, hcd⟩ := hworkers t hmem
        subst hcd
        simp [hchan, hopen]
  · cases i with
    | zero =>
      cases rest with
      | nil =>
        obtain ⟨l, hl⟩ : ∃ l, p.tasks = Task.lister (some []) :: l := by
          cases hl : p.tasks with
          | nil => simp [hl] at h0
          | cons a l => simp [hl] at h0; exact ⟨l, by rw [h0]⟩
        refine Or.inr (Or.inr ⟨?_, ?_, ?_, ?_⟩)
        · intro t ht
          simp [Pool.step, hl, Pool.update] at ht
          exact hone t (by simp [hl, ht])
        · simp [Pool.step, hl, Pool.update]
        · rw [← hsent]
          simp [Pool.step, hl, Pool.update, sentFiles_append, sentFiles]
        · simp [Pool.step, hl, Pool.update]
      | cons file rest =>
        obtain ⟨l, hl⟩ : ∃ l, p.tasks = Task.lister (some (file :: rest)) :: l := by
          cases hl : p.tasks with
          | nil => simp [hl] at h0
          | cons a l => simp [hl] at h0; exact ⟨l, by rw [h0]⟩
        by_cases hlt : p.fileChan.length < maxFiles
        · refine Or.inr (Or.inl ⟨?_, rest, ?_, ?_⟩)
          · intro t ht
            simp [Pool.step, hl, Pool.update, hlt] at ht
            exact hone t (by simp [hl, ht])
          · simp [Pool.step, hl, Pool.update, hlt]
          · rw [← hsent]
            simp [Pool.step, hl, Pool.update, hlt, sentFiles_append, sentFiles]
        · have hstep : Pool.step sys conn initConfig 0 p = p := by
            unfold Pool.step
            rw [h0]
            simp only [hlt, if_false]
          rw [hstep]
          exact Or.inr (Or.inl ⟨hone, file :: rest, h0, hsent⟩)
    | succ j =>
      obtain ⟨h1, h2, h3, _, _⟩ := Pool.step_other sys conn initConfig j p _ hone h0
      exact Or.inr (Or.inl ⟨h2, rest, h1, by rw [h3]; exact hsent⟩)
  · cases i with
    | zero =>
      have hstep : Pool.step sys conn initConfig 0 p = p := by
        unfold Pool.step
        rw [h0]
      rw [hstep]
      exact Or.inr (Or.inr ⟨hone, h0, hsent, hclosed⟩)
    | succ j =>
      obtain ⟨h1, h2, h3, _, h5⟩ := Pool.step_other sys conn initConfig j p _ hone h0
      exact Or.inr (Or.inr ⟨h2, h1, by rw [h3]; exact hsent, h5 hclosed⟩)

/-- Along every schedule the files sent stay in line with the files `FtpList` has to send. -/
theorem Pool.listerSafe_steps (sys : Sys σ) (conn : Option Client) (initConfig : InitConfig)
    (p0 : Pool σ) (workers : List Task) (files : List FileInfo)
    (htasks : p0.tasks = Task.lister none :: workers)
    (hworkers : ∀ t ∈ workers, ∃ clientNum downloadCount, t = Task.worker clientNum downloadCount)
    (hchan : p0.fileChan = []) (hopen : p0.closed = false)
    (hlist : (FtpListFiles sys conn initConfig p0.world).val = Except.ok files) :
    ∀ (sched : List Nat) (p : Pool σ), Pool.listerSafe p0 files p →
      Pool.listerSafe p0 files (Pool.steps sys conn initConfig sched p) := by
  intro sched
  induction sched with
  | nil => intro p h; simpa [Pool.steps] using h
  | cons i sched ih =>
    intro p h
    exact ih _ (Pool.listerSafe_step sys conn initConfig p0 workers files htasks hworkers
      hchan hopen hlist i p h)

/-- Along every schedule `FtpList` stays on its way, with one step less to do for each of
its own steps. -/
theorem Pool.listerAt_steps (sys : Sys σ) (conn : Option Client) (initConfig : InitConfig)
    (p0 : Pool σ) (workers : List Task) (files : List FileInfo)
    (htasks : p0.tasks = Task.lister none :: workers)
    (hworkers : ∀ t ∈ workers, ∃ clientNum downloadCount, t = Task.worker clientNum downloadCount)
    (hchan : p0.fileChan = []) (hopen : p0.closed = false)
    (hlist : (FtpListFiles sys conn initConfig p0.world).val = Except.ok files)
    (hcap : files.length ≤ maxFiles) :
    ∀ (sched : List Nat) (p : Pool σ) (todo : Nat), Pool.listerAt p0 files p todo →
      Pool.listerAt p0 files (Pool.steps sys conn initConfig sched p)
        (todo - sched.count 0) := by
  intro sched
  induction sched with
  | nil => intro p todo h; simpa [Pool.steps] using h
  | cons i sched ih =>
    intro p todo h
    have hstep := Pool.listerAt_step sys conn initConfig p0 workers files htasks hworkers
      hchan hopen hlist hcap i p todo h
    have hrest := ih _ _ hstep
    have hsteps : Pool.steps sys conn initConfig (i :: sched) p
        = Pool.steps sys conn initConfig sched (Pool.step sys conn initConfig i p) := rfl
    rw [hsteps]
    by_cases hi : i = 0
    · subst hi
      simp only [if_true] at hrest
      have hc : todo - (0 :: sched).count 0 = todo - 1 - sched.count 0 := by
        simp [List.count_cons]; omega
      rw [hc]; exact hrest
    · simp only [hi, if_false] at hrest
      have hc : (i :: sched).count 0 = sched.count 0 := by
        simp [List.count_cons, hi]
      rw [hc]; exact hrest

/-- After a successful listing with no more than `maxFileCount` eligible entries, the files
`FtpList` has to send are the eligible entries of the listing, in listing order. -/
theorem FtpListFiles_ok (sys : Sys σ) (conn : Option Client) (initConfig : InitConfig)
    (w w1 : σ) (fileList : List FileInfo)
    (hread : sys.readDir conn initConfig.FtpPath w = (Except.ok fileList, w1))
    (hcap : ((fileList.filter (fun file => decide (Eligible initConfig file))).length : Int)
      ≤ maxFileCount) :
    (FtpListFiles sys conn initConfig w).val
      = Except.ok (eligibleFiles initConfig fileList) := by
  simp only [FtpListFiles, hread, listLoop_eq, sendLoop_eq_take, List.nil_append]
  congr 1
  apply List.take_of_length_le
  have : ((eligibleFiles initConfig fileList).length : Int) ≤ maxFileCount := hcap
  unfold maxFileCount at this ⊢
  simp only [Nat.cast_zero, sub_zero]
  omega

/-- C3: in a pool as `StartFtpDownload` starts it (`FtpList` and workers, an empty open
channel, nothing sent yet), after a successful listing whose eligible entries are no more
than the batch cap `maxFileCount`, and along every schedule of the goroutines: the entries
sent on the channel are at every moment the first entries of the listing restricted to its
eligible entries; once `FtpList` has returned, the channel is closed and the entries sent
are exactly the eligible entries of the listing, in listing order, each position of the
listing at most once (so without duplicates when the listing has none); and when the
eligible entries are no more than the capacity `maxFiles = 50` of the channel, no send of
`FtpList` blocks, so that `FtpList` has returned once it has had one step for `ReadDir`, one
for each eligible entry and one for its return. An entry is eligible iff it is not a
directory and the `FileNameFilter` is empty or the name of the entry ends with it. -/
theorem FtpList_sends_eligible_in_order (sys : Sys σ) (conn : Option Client)
    (initConfig : InitConfig) (p0 : Pool σ) (workers : List Task) (fileList : List FileInfo)
    (w1 : σ) (sched : List Nat)
    (htasks : p0.tasks = Task.lister none :: workers)
    (hworkers : ∀ t ∈ workers, ∃ clientNum downloadCount, t = Task.worker clientNum downloadCount)
    (hchan : p0.fileChan = []) (hopen : p0.closed = false)
    (hnone : sentFiles p0.trace = [])
    (hread : sys.readDir conn initConfig.FtpPath p0.world = (Except.ok fileList, w1))
    (hcap : ((fileList.filter (fun file => decide (Eligible initConfig file))).length : Int)
      ≤ maxFileCount) :
    (∃ k, sentFiles (Pool.steps sys conn initConfig sched p0).trace
        = (fileList.filter (fun file => decide (Eligible initConfig file))).take k) ∧
    ((Pool.steps sys conn initConfig sched p0).tasks.get? 0 = some Task.done →
      (Pool.steps sys conn initConfig sched p0).closed = true ∧
      sentFiles (Pool.steps sys conn initConfig sched p0).trace
        = fileList.filter (fun file => decide (Eligible initConfig file)) ∧
      (sentFiles (Pool.steps sys conn initConfig sched p0).trace).Sublist fileList ∧
      (fileList.Nodup →
        (sentFiles (Pool.steps sys conn initConfig sched p0).trace).Nodup)) ∧
    ((fileList.filter (fun file => decide (Eligible initConfig file))).length ≤ maxFiles →
      (fileList.filter (fun file => decide (Eligible initConfig file))).length + 2
        ≤ sched.count 0 →
      (Pool.steps sys conn initConfig sched p0).tasks.get? 0 = some Task.done) := by
  have hlist := FtpListFiles_ok sys conn initConfig p0.world w1 fileList hread hcap
  have hsafe := Pool.listerSafe_steps sys conn initConfig p0 workers
    (eligibleFiles initConfig fileList) htasks hworkers hchan hopen hlist sched p0
    (Or.inl rfl)
  simp only [Pool.listerSafe, hnone, List.nil_append] at hsafe
  refine ⟨?_, ?_, ?_⟩
  · rcases hsafe with hp | ⟨_, rest, _, hsent⟩ | ⟨_, _, hsent, _⟩
    · exact ⟨0, by rw [hp, hnone]; simp⟩
    · refine ⟨(sentFiles (Pool.steps sys conn initConfig sched p0).trace).length, ?_⟩
      show _ = (eligibleFiles initConfig fileList).take _
      rw [← hsent]; simp
    · exact ⟨(eligibleFiles initConfig fileList).length, by rw [hsent]; simp [eligibleFiles]⟩
  · intro hdone
    rcases hsafe with hp | ⟨_, rest, h0, _⟩ | ⟨_, _, hsent, hclosed⟩
    · rw [hp, htasks] at hdone
      simp at hdone
    · rw [h0] at hdone
      simp at hdone
    · have hsent2 : sentFiles (Pool.steps sys conn initConfig sched p0).trace
          = fileList.filter (fun file => decide (Eligible initConfig file)) := hsent
      refine ⟨hclosed, hsent2, ?_, ?_⟩
      · rw [hsent2]; exact List.filter_sublist _
      · intro hnodup; rw [hsent2]; exact hnodup.filter _
  · intro hroom hcount
    change (eligibleFiles initConfig fileList).length + 2 ≤ sched.count 0 at hcount
    have hat := Pool.listerAt_steps sys conn initConfig p0 workers
      (eligibleFiles initConfig fileList) htasks hworkers hchan hopen hlist hroom sched p0
      ((eligibleFiles initConfig fileList).length + 2) (Or.inl ⟨rfl, rfl⟩)
    rcases hat with ⟨_, htodo⟩ | ⟨_, rest, _, _, _, htodo⟩ | ⟨_, h0, _, _, _⟩
    · omega
    · omega
    · exact h0

/-- C3 at a concrete input: five remote files, three with a name that ends in `.csv`, the
filter `.csv`, and a schedule that lets the workers run between the steps of `FtpList`:
`FtpList` returns, exactly those three are sent, in listing order, and the channel is
closed. -/
theorem FtpList_sends_eligible_in_order_witness :
    (Pool.steps (listingSys fiveFiles) (some 1) (sampleConfig 3 5 (utf8 ".csv"))
        [1, 0, 0, 2, 0, 3, 0, 1, 0] (startPool 1)).tasks.get? 0 = some Task.done ∧
    (Pool.steps (listingSys fiveFiles) (some 1) (sampleConfig 3 5 (utf8 ".csv"))
        [1, 0, 0, 2, 0, 3, 0, 1, 0] (startPool 1)).closed = true ∧
    sentFiles (Pool.steps (listingSys fiveFiles) (some 1) (sampleConfig 3 5 (utf8 ".csv"))
        [1, 0, 0, 2, 0, 3, 0, 1, 0] (startPool 1)).trace
      = [regularFile (utf8 "a.csv") 1000, regularFile (utf8 "b.csv") 1000,
         regularFile (utf8 "c.csv") 1000] := by
  have h := FtpList_sends_eligible_in_order (listingSys fiveFiles) (some 1)
    (sampleConfig 3 5 (utf8 ".csv")) (startPool 1)
    ((List.range maxConnection).map (fun i => Task.worker ((i : Int) + 1) 0)) fiveFiles 1
    [1, 0, 0, 2, 0, 3, 0, 1, 0] rfl
    (by intro t ht; obtain ⟨i, _, rfl⟩ := List.mem_map.mp ht; exact ⟨_, _, rfl⟩)
    rfl rfl rfl rfl (by decide)
  have hdone := h.2.2 (by decide) (by decide)
  obtain ⟨hclosed, hsent, _⟩ := h.2.1 hdone
  refine ⟨hdone, hclosed, ?_⟩
  rw [hsent]
  decide

set_option maxRecDepth 100000 in
/-- Beyond the capacity of the channel the sends depend on the workers: 60 remote files in a
world where no staged file can be created. `FtpList` fills the channel with 50 entries, each
of the three workers receives one entry and returns, `FtpList` sends three more entries and
then blocks: 53 entries are sent, the channel stays open and `FtpList` does not return. -/
theorem FtpList_blocks_when_workers_returned :
    sentFiles (Pool.steps (fullDiskSys (manyFiles 60)) (some 1) (sampleConfig 3 5 [])
        (List.replicate 52 0 ++ [1, 2, 3] ++ List.replicate 10 0) (startPool 1)).trace
      = manyFiles 53 ∧
    (Pool.steps (fullDiskSys (manyFiles 60)) (some 1) (sampleConfig 3 5 [])
        (List.replicate 52 0 ++ [1, 2, 3] ++ List.replicate 10 0) (startPool 1)).closed
      = false ∧
    (Pool.steps (fullDiskSys (manyFiles 60)) (some 1) (sampleConfig 3 5 [])
        (List.replicate 52 0 ++ [1, 2, 3] ++ List.replicate 10 0) (startPool 1)).tasks
      = [Task.lister (some ((manyFiles 60).drop 53)), Task.done, Task.done, Task.done] := by
  refine ⟨by decide, by decide, by decide⟩

theorem sentFiles_retryLoop (sys : Sys σ) (initConfig : InitConfig) (config : Config) :
    ∀ (fuel : Nat) (st st2 : ConnState σ),
      retryLoop sys initConfig config fuel st = some st2 →
      sentFiles st.trace = [] → sentFiles st2.trace = [] := by
  intro fuel
  induction fuel with
  | zero =>
    intro st st2 h hs
    rw [retryLoop] at h
    split at h
    · exact Option.noConfusion h
    · simp only [Option.some.injEq] at h
      rw [← h]; exact hs
  | succ fuel ih =>
    intro st st2 h hs
    rw [retryLoop] at h
    split at h
    · simp only at h
      split at h
      · exact ih _ _ h (by simp [sentFiles_append, hs, sentFiles])
      · simp only [Option.some.injEq] at h
        rw [← h]
        simp [sentFiles_append, hs, sentFiles]
    · simp only [Option.some.injEq] at h
      rw [← h]; exact hs

/-- The function `FtpsConnect` sends nothing on the channel. -/
theorem sentFiles_FtpsConnect (sys : Sys σ) (initConfig : InitConfig) (w : σ)
    (c : Run σ (Option Client × Option Error)) (h : FtpsConnect sys initConfig w = some c) :
    sentFiles c.trace = [] := by
  unfold FtpsConnect at h
  simp only at h
  split at h
  · exact Option.noConfusion h
  · rename_i st hafter
    have hst : sentFiles st.trace = [] := by
      split at hafter
      · exact sentFiles_retryLoop sys initConfig _ _ _ _ hafter (by simp [sentFiles])
      · simp only [Option.some.injEq] at hafter
        rw [← hafter]; simp [sentFiles]
    split at h <;> (simp only [Option.some.injEq] at h; rw [← h]; exact hst)

/-- The pool in which `StartFtpDownload` runs its goroutines once the log file is open and
the connection is made: `startPool` with the calls made so far, none of them a send. -/
theorem StartFtpDownload_pool (sys : Sys σ) (initConfig : InitConfig) (sched : List Nat)
    (w w1 : σ) (c : Run σ (Option Client × Option Error))
    (hlog : sys.osOpenFile
      (initConfig.LogFile ++ utf8 "_" ++ (sys.today w).1 ++ utf8 ".txt") (sys.today w).2
        = (none, w1))
    (hconn : FtpsConnect sys initConfig w1 = some c) (hok : c.val.2 = none) :
    sentFiles (Event.osOpenFile
        (initConfig.LogFile ++ utf8 "_" ++ (sys.today w).1 ++ utf8 ".txt") none
          :: c.trace) = [] ∧
    StartFtpDownload sys initConfig sched w =
      (Pool.run sys c.val.1 initConfig sched
        { startPool c.world with
          trace := Event.osOpenFile
            (initConfig.LogFile ++ utf8 "_" ++ (sys.today w).1 ++ utf8 ".txt") none
              :: c.trace }).map
        (fun p => ⟨none, p.trace ++ [Event.connClose, Event.fileClose
            (initConfig.LogFile ++ utf8 "_" ++ (sys.today w).1 ++ utf8 ".txt")
            (sys.fileClose
              (initConfig.LogFile ++ utf8 "_" ++ (sys.today w).1 ++ utf8 ".txt")
              (sys.connClose c.val.1 p.world).2).1],
          (sys.fileClose
            (initConfig.LogFile ++ utf8 "_" ++ (sys.today w).1 ++ utf8 ".txt")
            (sys.connClose c.val.1 p.world).2).2⟩) := by
  constructor
  · simp [sentFiles, sentFiles_FtpsConnect sys initConfig w1 c hconn]
  · unfold StartFtpDownload
    simp only [hlog, hconn, hok, startPool]
    cases Pool.run sys c.val.1 initConfig sched _ <;> rfl

theorem countP_set_alive (t : Task) :
    ∀ (l : List Task) (i : Nat) (told : Task), l.get? i = some told →
      ((l.set i t).countP Task.alive : Int)
        = l.countP Task.alive - (if told.alive then 1 else 0) + (if t.alive then 1 else 0) := by
  intro l
  induction l with
  | nil => intro i told h; simp at h
  | cons a l ih =>
    intro i told h
    cases i with
    | zero =>
      simp only [List.get?_cons_zero, Option.some.injEq] at h
      subst h
      simp only [List.set_cons_zero, List.countP_cons]
      push_cast
      split <;> split <;> simp_all
    | succ i =>
      simp only [List.get?_cons_succ] at h
      simp only [List.set_cons_succ, List.countP_cons]
      push_cast
      rw [ih i told h]
      omega

/-- The counter of `wg` is the number of goroutines that have not returned: each step keeps
it so. -/
theorem Pool.step_wg (sys : Sys σ) (conn : Option Client) (initConfig : InitConfig)
    (i : Nat) (p : Pool σ) (h : (p.tasks.countP Task.alive : Int) = p.wg) :
    (((Pool.step sys conn initConfig i p).tasks.countP Task.alive : Nat) : Int)
      = (Pool.step sys conn initConfig i p).wg := by
  unfold Pool.step
  cases ht : p.tasks.get? i with
  | none => exact h
  | some t =>
    have hset := fun tnew => countP_set_alive tnew p.tasks i t ht
    cases t with
    | done => exact h
    | lister todo =>
      cases todo with
      | none =>
        simp only
        split
        · simp [Pool.update, hset, Task.alive, ← h]
        · simp [Pool.update, hset, Task.alive, ← h]
      | some files =>
        cases files with
        | nil => simp [Pool.update, hset, Task.alive, ← h]
        | cons file rest =>
          simp only
          split
          · simp [Pool.update, hset, Task.alive, ← h]
          · exact h
    | worker clientNum downloadCount =>
      simp only
      split
      · split
        · simp [Pool.update, hset, Task.alive, ← h]
        · exact h
      · split
        · simp [Pool.update, hset, Task.alive, ← h]
        · simp [Pool.update, hset, Task.alive, ← h]
    | commit tempFile destFile backupFile =>
      simp [Pool.update, hset, Task.alive, ← h]
    | move src dst =>
      simp [Pool.update, hset, Task.alive, ← h]

theorem Pool.steps_wg (sys : Sys σ) (conn : Option Client) (initConfig : InitConfig) :
    ∀ (sched : List Nat) (p : Pool σ), (p.tasks.countP Task.alive : Int) = p.wg →
      (((Pool.steps sys conn initConfig sched p).tasks.countP Task.alive : Nat) : Int)
        = (Pool.steps sys conn initConfig sched p).wg := by
  intro sched
  induction sched with
  | nil => intro p h; exact h
  | cons i sched ih => intro p h; exact ih _ (Pool.step_wg sys conn initConfig i p h)

/-- When `wg.Wait()` returns, the goroutines have run some part of the schedule and the
counter of `wg` is zero. -/
theorem Pool.run_eq_steps (sys : Sys σ) (conn : Option Client) (initConfig : InitConfig) :
    ∀ (sched : List Nat) (p q : Pool σ), Pool.run sys conn initConfig sched p = some q →
      q.wg = 0 ∧ ∃ part, q = Pool.steps sys conn initConfig part p := by
  intro sched
  induction sched with
  | nil =>
    intro p q h
    rw [Pool.run] at h
    split at h
    · simp only [Option.some.injEq] at h
      subst h
      exact ⟨by assumption, [], rfl⟩
    · exact Option.noConfusion h
  | cons i sched ih =>
    intro p q h
    rw [Pool.run] at h
    split at h
    · simp only [Option.some.injEq] at h
      subst h
      exact ⟨by assumption, [], rfl⟩
    · obtain ⟨hwg, part, hpart⟩ := ih _ _ h
      exact ⟨hwg, i :: part, hpart⟩

/-- For every schedule of the goroutines: when the log file opens, the connection is made,
the remote directory is listed and its eligible entries are no more than `maxFileCount`, a
run of `StartFtpDownload` that returns has sent exactly the eligible entries of the listing,
in listing order. -/
theorem StartFtpDownload_sends_eligible (sys : Sys σ) (initConfig : InitConfig)
    (sched : List Nat) (w w1 w2 : σ) (c : Run σ (Option Client × Option Error))
    (fileList : List FileInfo) (r : Run σ (Option Error))
    (hlog : sys.osOpenFile
      (initConfig.LogFile ++ utf8 "_" ++ (sys.today w).1 ++ utf8 ".txt") (sys.today w).2
        = (none, w1))
    (hconn : FtpsConnect sys initConfig w1 = some c) (hok : c.val.2 = none)
    (hread : sys.readDir c.val.1 initConfig.FtpPath c.world = (Except.ok fileList, w2))
    (hcap : ((fileList.filter (fun file => decide (Eligible initConfig file))).length : Int)
      ≤ maxFileCount)
    (hrun : StartFtpDownload sys initConfig sched w = some r) :
    sentFiles r.trace = fileList.filter (fun file => decide (Eligible initConfig file)) := by
  obtain ⟨hnone, hstart⟩ := StartFtpDownload_pool sys initConfig sched w w1 c hlog hconn hok
  rw [hstart] at hrun
  cases hpool : Pool.run sys c.val.1 initConfig sched
      { startPool c.world with
        trace := Event.osOpenFile
          (initConfig.LogFile ++ utf8 "_" ++ (sys.today w).1 ++ utf8 ".txt") none
            :: c.trace } with
  | none => rw [hpool] at hrun; exact Option.noConfusion hrun
  | some q =>
    rw [hpool] at hrun
    simp only [Option.map, Option.some.injEq] at hrun
    obtain ⟨hwg, part, hpart⟩ := Pool.run_eq_steps sys c.val.1 initConfig sched _ q hpool
    have hcount := Pool.steps_wg sys c.val.1 initConfig part
      { startPool c.world with
        trace := Event.osOpenFile
          (initConfig.LogFile ++ utf8 "_" ++ (sys.today w).1 ++ utf8 ".txt") none
            :: c.trace } (by simp [startPool, maxConnection, Task.alive, List.range_succ])
    rw [← hpart, hwg] at hcount
    have hall : ∀ t ∈ q.tasks, t.alive = false := by
      have h0 : q.tasks.countP Task.alive = 0 := by exact_mod_cast hcount
      intro t ht
      have := List.countP_eq_zero.mp h0 t ht
      simpa using this
    have hsafe := Pool.listerSafe_steps sys c.val.1 initConfig
      { startPool c.world with
        trace := Event.osOpenFile
          (initConfig.LogFile ++ utf8 "_" ++ (sys.today w).1 ++ utf8 ".txt") none
            :: c.trace }
      ((List.range maxConnection).map (fun i => Task.worker ((i : Int) + 1) 0))
      (eligibleFiles initConfig fileList) rfl
      (by intro t ht; obtain ⟨i, _, rfl⟩ := List.mem_map.mp ht; exact ⟨_, _, rfl⟩)
      rfl rfl (FtpListFiles_ok sys c.val.1 initConfig c.world w2 fileList hread hcap)
      part _ (Or.inl rfl)
    rw [← hpart] at hsafe
    simp only [Pool.listerSafe, hnone, List.nil_append] at hsafe
    have hqsent : sentFiles q.trace = eligibleFiles initConfig fileList := by
      rcases hsafe with hp | ⟨_, rest, h0, _⟩ | ⟨_, _, hsent, _⟩
      · have := hall (Task.lister none) (by rw [hp]; simp [startPool])
        simp [Task.alive] at this
      · have := hall _ (List.get?_mem h0)
        simp [Task.alive] at this
      · exact hsent
    rw [← hrun]
    simp only [sentFiles_append, hqsent, sentFiles, List.append_nil]
    rfl

end Ftpsclient
